import Mathlib

/-!
Trade queue and per-account aggregation.

A shallow embedding of the queue-and-aggregation pipeline of the broker service:

* `internal/db/db.go`      : `Trade`, `Stats`, `EnqueueTrade`, `FetchPendingTrades`,
                             `MarkProcessed`, `UpdateStats`, `GetStats`
* `internal/db/migrate.go` : the two tables `trades_q` and `account_stats`
* `internal/db/worker.go`  : `ProcessPending`
* `cmd/worker/main.go`     : `CalculateProfitFromTrade`, `ProcessTrade`, `ProcessPendingTrades`
* `cmd/server/main.go`     : `CalculateProfit`, `TradeRequest`, `symbolRe`,
                             `ValidateTradeRequest`

Modelling conventions.

* `float64` values are exact rationals (`ℚ`): prices, volumes and profits are computed in exact
  arithmetic, rounding of binary floating point is not represented.
* Go `int` and SQLite `INTEGER` are unbounded integers (`Int`); running out of 64-bit row ids
  is one of the storage failures below.
* The database is a value of type `DB`; a Go function taking `*sql.DB` takes the database and
  returns the new one next to its Go results.
* A Go result of type `error` is an `Option Error` (`none` is `nil`).
* Every call into `database/sql` takes a `Fault`: `none` when the call goes through, `some e`
  when the storage layer answers with the error `e`.  A failed statement leaves the database as
  it was (statement and transaction atomicity of the storage engine).
-/

namespace Broker

/-! ## Data model (`internal/db/db.go`, `internal/db/migrate.go`) -/

/-- Go struct `db.Trade`. -/
structure Trade where
  ID : Int
  Account : String
  Symbol : String
  Volume : ℚ
  Open : ℚ
  Close : ℚ
  Side : String
deriving DecidableEq

/-- Go struct `db.Stats`; also the shape of one row of table `account_stats`. -/
structure Stats where
  Account : String
  Trades : Int
  Profit : ℚ
deriving DecidableEq

/-- One row of table `trades_q`: the trade columns and the `processed` column. -/
structure QRow where
  trade : Trade
  processed : Bool
deriving DecidableEq

/-- The database: table `trades_q` in row-id order, table `account_stats`, and the
`sqlite_sequence` entry kept for the `AUTOINCREMENT` key of `trades_q`. -/
structure DB where
  trades_q : List QRow
  account_stats : List Stats
  seq : Int
deriving DecidableEq

/-- The database right after `InitDB` on a fresh file: both tables empty. -/
def emptyDB : DB := { trades_q := [], account_stats := [], seq := 0 }

/-- Errors: those of the storage layer, the wrappers built with `fmt.Errorf` in
`cmd/worker/main.go` (which carry the trade id and the cause), and the errors built with
`fmt.Errorf` from a fixed message (`cmd/server/main.go`). -/
inductive Error where
  | driver (msg : String)
  | updatingStats (id : Int) (cause : Error)
  | markingProcessed (id : Int) (cause : Error)
  | fetchingTrades (cause : Error)
  | message (msg : String)
deriving DecidableEq

/-- The answer of the storage layer to one call: `none` lets it through. -/
abbrev Fault := Option Error

/-! ## Profit rule -/

/-- `CalculateProfit` of `cmd/server/main.go`. -/
def CalculateProfit (close open_ volume : ℚ) (side : String) : ℚ :=
  let profit := (close - open_) * volume * 100000
  if side = "sell" then -profit else profit

/-- `CalculateProfitFromTrade` of `cmd/worker/main.go`. -/
def CalculateProfitFromTrade (t : Trade) : ℚ :=
  let profit := (t.Close - t.Open) * t.Volume * 100000
  if t.Side = "sell" then -profit else profit

/-! ## Queue store (`internal/db/db.go`) -/

/-- Largest row id present in `trades_q`, if the table has a row. -/
def maxRowid : List QRow → Option Int
  | [] => none
  | r :: rs =>
    match maxRowid rs with
    | none => some r.trade.ID
    | some m => some (max r.trade.ID m)

/-- Row id given to the next inserted row of `trades_q` (`INTEGER PRIMARY KEY AUTOINCREMENT`):
one more than the largest row id in the table (1 for an empty table), and at least one more
than the largest row id recorded in `sqlite_sequence`. -/
def newRowid (db : DB) : Int :=
  let v : Int :=
    match maxRowid db.trades_q with
    | none => 1
    | some m => m + 1
  max v (db.seq + 1)

/-- `EnqueueTrade`: one `INSERT INTO trades_q (account, symbol, volume, open, close, side)`.
The id column is not part of the statement (the store assigns it), `processed` takes its
default 0, and the Go function returns only the error of `db.Exec`. -/
def EnqueueTrade (db : DB) (t : Trade) (f : Fault) : Option Error × DB :=
  match f with
  | some e => (some e, db)
  | none =>
    (none,
      { db with
        trades_q := db.trades_q ++ [{ trade := { t with ID := newRowid db }, processed := false }]
        seq := newRowid db })

/-- The rows selected by `SELECT ... FROM trades_q WHERE processed = 0`, as scanned into
`Trade` values. -/
def pendingTrades (db : DB) : List Trade :=
  (db.trades_q.filter (fun r => r.processed = false)).map (fun r => r.trade)

/-- Where a `FetchPendingTrades` call can fail: in `db.Query`, in `rows.Scan`, or in the row
iteration after `k` rows were appended (reported by `rows.Err()`). -/
inductive FetchFault where
  | query (e : Error)
  | scan (e : Error)
  | rowsErr (k : Nat) (e : Error)
deriving DecidableEq

/-- `FetchPendingTrades`. -/
def FetchPendingTrades (db : DB) (f : Option FetchFault) : List Trade × Option Error :=
  match f with
  | some (.query e) => ([], some e)
  | some (.scan e) => ([], some e)
  | some (.rowsErr k e) => ((pendingTrades db).take k, some e)
  | none => (pendingTrades db, none)

/-- The statement of `MarkProcessed` on table `trades_q`:
`UPDATE trades_q SET processed = 1 WHERE id = ?`. -/
def markRows (rows : List QRow) (id : Int) : List QRow :=
  rows.map (fun r => if r.trade.ID = id then { r with processed := true } else r)

/-- `MarkProcessed`. -/
def MarkProcessed (db : DB) (id : Int) (f : Fault) : Option Error × DB :=
  match f with
  | some e => (some e, db)
  | none => (none, { db with trades_q := markRows db.trades_q id })

/-! ## Stats store (`internal/db/db.go`) -/

/-- The statement of `UpdateStats` on table `account_stats`:
`INSERT ... VALUES (?, 1, ?) ON CONFLICT(account) DO UPDATE SET trades = trades + 1,
profit = profit + ?`. -/
def upsertStats (rows : List Stats) (account : String) (profit : ℚ) : List Stats :=
  if rows.any (fun s => s.Account = account) then
    rows.map (fun s =>
      if s.Account = account then { s with Trades := s.Trades + 1, Profit := s.Profit + profit }
      else s)
  else
    rows ++ [{ Account := account, Trades := 1, Profit := profit }]

/-- The three storage calls of `UpdateStats`: `db.Begin`, `tx.Exec`, `tx.Commit`. -/
structure TxFaults where
  beginTx : Fault
  execStmt : Fault
  commitTx : Fault
deriving DecidableEq

/-- No failure in a transaction. -/
def TxFaults.ok : TxFaults := { beginTx := none, execStmt := none, commitTx := none }

/-- `UpdateStats`: the upsert inside one transaction; every early return rolls back. -/
def UpdateStats (db : DB) (account : String) (profit : ℚ) (f : TxFaults) : Option Error × DB :=
  match f.beginTx with
  | some e => (some e, db)
  | none =>
    match f.execStmt with
    | some e => (some e, db)
    | none =>
      match f.commitTx with
      | some e => (some e, db)
      | none => (none, { db with account_stats := upsertStats db.account_stats account profit })

/-- `GetStats`: `SELECT trades, profit FROM account_stats WHERE account = ?`, first row;
`sql.ErrNoRows` gives the zero record without an error. -/
def GetStats (db : DB) (account : String) (f : Fault) : Stats × Option Error :=
  match f with
  | some e => ({ Account := account, Trades := 0, Profit := 0 }, some e)
  | none =>
    match db.account_stats.find? (fun s => s.Account = account) with
    | some s => ({ Account := account, Trades := s.Trades, Profit := s.Profit }, none)
    | none => ({ Account := account, Trades := 0, Profit := 0 }, none)

/-! ## Worker (`cmd/worker/main.go`) -/

/-- The storage calls of one `ProcessTrade`: those of `UpdateStats`, then `MarkProcessed`. -/
structure TradeFaults where
  stats : TxFaults
  mark : Fault
deriving DecidableEq

/-- No failure while processing a trade. -/
def TradeFaults.ok : TradeFaults := { stats := TxFaults.ok, mark := none }

/-- `ProcessTrade`. -/
def ProcessTrade (db : DB) (t : Trade) (f : TradeFaults) : Option Error × DB :=
  let profit := CalculateProfitFromTrade t
  match UpdateStats db t.Account profit f.stats with
  | (some e, db1) => (some (Error.updatingStats t.ID e), db1)
  | (none, db1) =>
    match MarkProcessed db1 t.ID f.mark with
    | (some e, db2) => (some (Error.markingProcessed t.ID e), db2)
    | (none, db2) => (none, db2)

/-- The storage calls of one tick: the fetch, then one `TradeFaults` per fetched trade in
batch order (a missing entry is `TradeFaults.ok`). -/
structure TickFaults where
  fetch : Option FetchFault
  trades : List TradeFaults
deriving DecidableEq

/-- No failure during a tick. -/
def TickFaults.ok : TickFaults := { fetch := none, trades := [] }

/-- Result of a tick: the two Go results, the database, the lines written with `log.Printf`,
and a record of the `ProcessTrade` calls made (argument and returned error, in call order). -/
structure TickResult where
  count : Int
  err : Option Error
  db : DB
  log : List Error
  calls : List (Trade × Option Error)
deriving DecidableEq

/-- The `for _, t := range trades` loop of `ProcessPendingTrades`, started with the running
`processedCount`, log and call record. -/
def processLoop :
    List Trade → List TradeFaults → DB → Int → List Error → List (Trade × Option Error) →
      TickResult
  | [], _, db, processedCount, log, calls =>
    { count := processedCount, err := none, db := db, log := log, calls := calls }
  | t :: ts, fs, db, processedCount, log, calls =>
    match ProcessTrade db t (fs.headD TradeFaults.ok) with
    | (some e, db1) =>
      processLoop ts fs.tail db1 processedCount (log ++ [e]) (calls ++ [(t, some e)])
    | (none, db1) =>
      processLoop ts fs.tail db1 (processedCount + 1) log (calls ++ [(t, none)])

/-- `ProcessPendingTrades`. -/
def ProcessPendingTrades (db : DB) (f : TickFaults) : TickResult :=
  match FetchPendingTrades db f.fetch with
  | (_, some e) =>
    { count := 0, err := some (Error.fetchingTrades e), db := db, log := [], calls := [] }
  | (trades, none) => processLoop trades f.trades db 0 [] []

/-! ## The second drain (`internal/db/worker.go`) -/

/-- The loop of `ProcessPending`: the first failing call ends it. -/
def pendingLoop : List Trade → List TradeFaults → DB → Option Error × DB
  | [], _, db => (none, db)
  | t :: ts, fs, db =>
    let profit := (t.Close - t.Open) * t.Volume * 100000
    let profit := if t.Side = "sell" then -profit else profit
    match UpdateStats db t.Account profit (fs.headD TradeFaults.ok).stats with
    | (some e, db1) => (some e, db1)
    | (none, db1) =>
      match MarkProcessed db1 t.ID (fs.headD TradeFaults.ok).mark with
      | (some e, db2) => (some e, db2)
      | (none, db2) => pendingLoop ts fs.tail db2

/-- `ProcessPending` of `internal/db/worker.go`. -/
def ProcessPending (db : DB) (f : TickFaults) : Option Error × DB :=
  match FetchPendingTrades db f.fetch with
  | (_, some e) => (some e, db)
  | (trades, none) => pendingLoop trades f.trades db

/-! ## The scenario of two trades for one account -/

/-- Buy trade of the scenario: volume 1.0, open 1.0, close 2.0. -/
def buyTrade : Trade :=
  { ID := 0, Account := "acc1", Symbol := "ABCDEF", Volume := 1, Open := 1, Close := 2,
    Side := "buy" }

/-- Sell trade of the scenario: volume 0.5, open 2.0, close 1.5. -/
def sellTrade : Trade :=
  { ID := 0, Account := "acc1", Symbol := "ABCDEF", Volume := 1 / 2, Open := 2, Close := 3 / 2,
    Side := "sell" }

/-- The empty store after enqueueing the buy trade and then the sell trade. -/
def scenarioDB : DB :=
  (EnqueueTrade (EnqueueTrade emptyDB buyTrade none).2 sellTrade none).2

/-- The store in which the buy trade of the scenario is the only record (id 1, pending). -/
def oneTradeDB : DB := (EnqueueTrade emptyDB buyTrade none).2

/-- The buy trade of the scenario as it is fetched from `oneTradeDB`: with its id 1. -/
def buyTrade1 : Trade := { buyTrade with ID := 1 }

/-! ## Notions used in the statements -/

/-- The trades of a batch that belong to `account`. -/
def tradesOf (batch : List Trade) (account : String) : List Trade :=
  batch.filter (fun t => t.Account = account)

/-- Sum of the signed profits of a list of trades. -/
def totalProfit (ts : List Trade) : ℚ :=
  (ts.map CalculateProfitFromTrade).sum

/-- The queue records with processed = true, as trades. -/
def processedTrades (db : DB) : List Trade :=
  (db.trades_q.filter (fun r => r.processed = true)).map (fun r => r.trade)

/-- Aggregate invariant of the data model: for every account, the stored trades count is the
number of processed queue records of the account and the stored profit is the sum of their
signed profits. -/
def AggregateInvariant (db : DB) : Prop :=
  ∀ account : String,
    (GetStats db account none).1.Trades = (tradesOf (processedTrades db) account).length ∧
    (GetStats db account none).1.Profit = totalProfit (tradesOf (processedTrades db) account)

/-- The primary key of `trades_q`: no two rows share an id. -/
def UniqueIds (db : DB) : Prop :=
  (db.trades_q.map (fun r => r.trade.ID)).Nodup

/-- No `MarkProcessed` call of the tick fails. -/
def TickFaults.marksOk (f : TickFaults) : Prop :=
  ∀ tf ∈ f.trades, tf.mark = none

/-- The stores reachable from the empty store through `EnqueueTrade` calls (failing or not),
worker ticks, and worker ticks cut short after `k` trades of the batch (the worker stopped
between two `ProcessTrade` calls), where the storage failures of every tick satisfy
`allowed`. A stop between the stats update and the mark-processed update of a trade leaves
the store of a failed `MarkProcessed` on that trade followed by a stop. -/
inductive Reachable (allowed : TickFaults → Prop) : DB → Prop where
  | init : Reachable allowed emptyDB
  | enqueue (db : DB) (t : Trade) (f : Fault) :
      Reachable allowed db → Reachable allowed (EnqueueTrade db t f).2
  | tick (db : DB) (f : TickFaults) :
      allowed f → Reachable allowed db → Reachable allowed (ProcessPendingTrades db f).db
  | stopped (db : DB) (f : TickFaults) (k : Nat) :
      allowed f → Reachable allowed db →
        Reachable allowed (processLoop ((pendingTrades db).take k) f.trades db 0 [] []).db

/-- A tick on `oneTradeDB` in which the stats update goes through and `MarkProcessed`
fails. -/
def markFailure : TickFaults :=
  { fetch := none
    trades := [{ stats := TxFaults.ok, mark := some (Error.driver "database is locked") }] }

/-- A tick in which the stats update of the first trade fails and the second trade goes
through. -/
def statsFailure : TickFaults :=
  { fetch := none
    trades :=
      [{ stats := { beginTx := none, execStmt := some (Error.driver "disk I/O error"),
                    commitTx := none },
         mark := none }] }

instance (db : DB) : Decidable (UniqueIds db) :=
  inferInstanceAs (Decidable (List.Nodup _))

instance (f : TickFaults) : Decidable f.marksOk :=
  inferInstanceAs (Decidable (∀ tf ∈ f.trades, tf.mark = none))

/-- The table `trades_q` is held in row-id order: ids strictly ascending from the first row
to the last. -/
def SortedIds (db : DB) : Prop :=
  (db.trades_q.map (fun r => r.trade.ID)).Pairwise (fun a b => a < b)

instance (db : DB) : Decidable (SortedIds db) :=
  inferInstanceAs (Decidable (List.Pairwise _ _))

/-! ## Request validation (`cmd/server/main.go`) -/

/-- Go struct `TradeRequest`. -/
structure TradeRequest where
  Account : String
  Symbol : String
  Volume : ℚ
  Open : ℚ
  Close : ℚ
  Side : String
deriving DecidableEq

/-- The regular expressions that occur between the anchors of `symbolRe`: a character range
`[lo-hi]` and a counted repetition `r{n}`. -/
inductive Regex where
  | range (lo hi : Char)
  | count (r : Regex) (n : Nat)

/-- Matching `n` times in a row with the matcher `m`: the rest of the input after the last
match, if all `n` matches are found. -/
def iterMatch (m : List Char → Option (List Char)) : Nat → List Char → Option (List Char)
  | 0, cs => some cs
  | n + 1, cs =>
    match m cs with
    | none => none
    | some rest => iterMatch m n rest

/-- Matching an expression at the start of the input: the rest of the input after the match,
if there is one. A range consumes one character of the range; `r{n}` matches `r` exactly `n`
times. -/
def Regex.matchStart : Regex → List Char → Option (List Char)
  | Regex.range lo hi => fun cs =>
    match cs with
    | [] => none
    | c :: rest => if lo ≤ c ∧ c ≤ hi then some rest else none
  | Regex.count r n => iterMatch (Regex.matchStart r) n

/-- `MatchString` for an expression written between `^` and `$` (no flags): the match starts
at the start of the text and ends at its end. -/
def matchAnchored (r : Regex) (s : String) : Bool :=
  r.matchStart s.data = some []

/-- `symbolRe`: the expression `^[A-Z]{6}$`, without its anchors. -/
def symbolRe : Regex := Regex.count (Regex.range 'A' 'Z') 6

/-- `ValidateTradeRequest`. -/
def ValidateTradeRequest (req : TradeRequest) : Option Error :=
  if req.Account = "" ∨ ¬ matchAnchored symbolRe req.Symbol = true ∨ req.Volume ≤ 0 ∨
      req.Open ≤ 0 ∨ req.Close ≤ 0 ∨ (req.Side ≠ "buy" ∧ req.Side ≠ "sell") then
    some (Error.message "invalid trade payload")
  else
    none

/-- The valid request of the validator's test table. -/
def validRequest : TradeRequest :=
  { Account := "acc1", Symbol := "ABCDEF", Volume := 1, Open := 3 / 2, Close := 2,
    Side := "buy" }

/-! ## Notions used to compare the two drains -/

/-- The error of the first failing storage call of `UpdateStats`, if one fails. -/
def TxFaults.firstError (f : TxFaults) : Option Error :=
  match f.beginTx with
  | some e => some e
  | none =>
    match f.execStmt with
    | some e => some e
    | none => f.commitTx

/-- The error of the first failing storage call made for one trade, if one fails. -/
def TradeFaults.firstError (f : TradeFaults) : Option Error :=
  match f.stats.firstError with
  | some e => some e
  | none => f.mark

/-- The failure pattern of a batch in which the first `n` trades go through, the next trade
meets the faults `f`, and the trades after it meet `rest`. -/
def failAt (n : Nat) (f : TradeFaults) (rest : List TradeFaults) : List TradeFaults :=
  List.replicate n TradeFaults.ok ++ f :: rest

/-- The sell trade of the scenario as it is fetched from `scenarioDB`: with its id 2. -/
def sellTrade2 : Trade := { sellTrade with ID := 2 }

/-- The faults of a failing `tx.Exec` in `UpdateStats`. -/
def execFailure : TradeFaults :=
  { stats := { beginTx := none, execStmt := some (Error.driver "disk I/O error"),
               commitTx := none },
    mark := none }

/-! ## Profit rule: theorems -/

/-- C1: for all `open`, `close`, `volume` (in particular all positive ones), `CalculateProfit`
with side "buy" is `(close - open) * volume * 100000`, with side "sell" it is the negation,
any side other than "sell" gives the un-negated value, and `CalculateProfitFromTrade t` equals
`CalculateProfit t.Close t.Open t.Volume t.Side` for every trade `t`. -/
theorem calculateProfit_rule (close open_ volume : ℚ) :
    CalculateProfit close open_ volume "buy" = (close - open_) * volume * 100000 ∧
    CalculateProfit close open_ volume "sell" = -((close - open_) * volume * 100000) ∧
    (∀ side : String, side ≠ "sell" →
      CalculateProfit close open_ volume side = (close - open_) * volume * 100000) ∧
    (∀ t : Trade, CalculateProfitFromTrade t = CalculateProfit t.Close t.Open t.Volume t.Side) := by
  refine ⟨?_, ?_, ?_, ?_⟩
  · simp [CalculateProfit]
  · simp [CalculateProfit]
  · intro side hside
    simp [CalculateProfit, hside]
  · intro t
    rfl

/-! ## The two-trade scenario -/

/-- C2 (as stated, refuted): after enqueueing the buy and the sell trade of the scenario for
"acc1" and processing all pending trades, with either drain, the profit of "acc1" is not
75000. -/
theorem scenario_profit_not_75000 :
    (GetStats (ProcessPendingTrades scenarioDB TickFaults.ok).db "acc1" none).1.Profit ≠ 75000 ∧
    (GetStats (ProcessPending scenarioDB TickFaults.ok).2 "acc1" none).1.Profit ≠ 75000 := by
  decide!

/-- C2 (amended): after enqueueing the buy and the sell trade of the scenario for "acc1" and
processing all pending trades, with either drain and without storage failure, the stats of
"acc1" are trades = 2 and profit = 125000 (the sell trade contributes +25000). -/
theorem scenario_stats :
    GetStats (ProcessPendingTrades scenarioDB TickFaults.ok).db "acc1" none =
      ({ Account := "acc1", Trades := 2, Profit := 125000 }, none) ∧
    GetStats (ProcessPending scenarioDB TickFaults.ok).2 "acc1" none =
      ({ Account := "acc1", Trades := 2, Profit := 125000 }, none) ∧
    CalculateProfitFromTrade buyTrade = 100000 ∧
    CalculateProfitFromTrade sellTrade = 25000 := by
  decide!

/-! ## Stats store: theorems -/

/-- The row `s` after the `DO UPDATE` branch of the upsert for `account`. -/
lemma find_bump_self (rows : List Stats) (a : String) (p : ℚ) :
    (rows.map (fun s =>
        if s.Account = a then { s with Trades := s.Trades + 1, Profit := s.Profit + p }
        else s)).find? (fun s => s.Account = a) =
      (rows.find? (fun s => s.Account = a)).map
        (fun s => { s with Trades := s.Trades + 1, Profit := s.Profit + p }) := by
  induction rows with
  | nil => rfl
  | cons s rows ih =>
    by_cases h : s.Account = a
    · simp [List.find?, h]
    · simp [List.find?, h, ih]

lemma find_bump_other (rows : List Stats) (a b : String) (p : ℚ) (hb : b ≠ a) :
    (rows.map (fun s =>
        if s.Account = a then { s with Trades := s.Trades + 1, Profit := s.Profit + p }
        else s)).find? (fun s => s.Account = b) =
      rows.find? (fun s => s.Account = b) := by
  induction rows with
  | nil => rfl
  | cons s rows ih =>
    rw [List.map_cons, List.find?_cons, List.find?_cons, ih]
    by_cases h : s.Account = a
    · have hsb : ¬ s.Account = b := fun hsb => hb (hsb.symm.trans h)
      have hab : ¬ a = b := fun hab => hb hab.symm
      simp only [h, if_true, hab, decide_False, hsb]
    · simp only [h, if_false]

lemma any_eq_false_of_find_none (rows : List Stats) (a : String)
    (h : rows.find? (fun s => s.Account = a) = none) :
    rows.any (fun s => s.Account = a) = false := by
  simpa [List.any_eq_false] using h

lemma any_eq_true_of_find_some (rows : List Stats) (a : String) (s : Stats)
    (h : rows.find? (fun s => s.Account = a) = some s) :
    rows.any (fun s => s.Account = a) = true := by
  have hm := List.mem_of_find?_eq_some h
  have hs := List.find?_some h
  exact List.any_eq_true.mpr ⟨s, hm, hs⟩

/-- Lookup of `account` after an upsert for the same account. -/
lemma find_upsert_self (rows : List Stats) (a : String) (p : ℚ) :
    (upsertStats rows a p).find? (fun s => s.Account = a) =
      match rows.find? (fun s => s.Account = a) with
      | none => some { Account := a, Trades := 1, Profit := p }
      | some s => some { s with Trades := s.Trades + 1, Profit := s.Profit + p } := by
  cases h : rows.find? (fun s => s.Account = a) with
  | none =>
    simp [upsertStats, any_eq_false_of_find_none rows a h, List.find?_append, h, List.find?]
  | some s =>
    rw [upsertStats, if_pos (any_eq_true_of_find_some rows a s h), find_bump_self, h]
    rfl

/-- Lookup of another account after an upsert. -/
lemma find_upsert_other (rows : List Stats) (a b : String) (p : ℚ) (hb : b ≠ a) :
    (upsertStats rows a p).find? (fun s => s.Account = b) =
      rows.find? (fun s => s.Account = b) := by
  unfold upsertStats
  split
  · exact find_bump_other rows a b p hb
  · have hab : ¬ a = b := fun hab => hb hab.symm
    simp [List.find?_append, List.find?, hab]

/-- C6: `UpdateStats` is an insert-or-increment. Without storage failure it returns no error;
if the account had no record, its record becomes {trades: 1, profit: p}; if its record was
{trades: n, profit: q}, it becomes {trades: n + 1, profit: q + p}; the records of the other
accounts and the queue are untouched. Whenever it returns an error (a failure of `Begin`,
`Exec` or `Commit`), the database, hence the stats table, is unchanged. -/
theorem updateStats_insert_or_increment (db : DB) (a : String) (p : ℚ) :
    (UpdateStats db a p TxFaults.ok).1 = none ∧
    ((∀ s ∈ db.account_stats, s.Account ≠ a) →
      (UpdateStats db a p TxFaults.ok).2.account_stats.find? (fun s => s.Account = a) =
          some { Account := a, Trades := 1, Profit := p } ∧
      GetStats (UpdateStats db a p TxFaults.ok).2 a none =
          ({ Account := a, Trades := 1, Profit := p }, none)) ∧
    (∀ n q, db.account_stats.find? (fun s => s.Account = a) =
          some { Account := a, Trades := n, Profit := q } →
      (UpdateStats db a p TxFaults.ok).2.account_stats.find? (fun s => s.Account = a) =
          some { Account := a, Trades := n + 1, Profit := q + p } ∧
      GetStats (UpdateStats db a p TxFaults.ok).2 a none =
          ({ Account := a, Trades := n + 1, Profit := q + p }, none)) ∧
    (∀ b, b ≠ a →
      (UpdateStats db a p TxFaults.ok).2.account_stats.find? (fun s => s.Account = b) =
        db.account_stats.find? (fun s => s.Account = b)) ∧
    (UpdateStats db a p TxFaults.ok).2.trades_q = db.trades_q ∧
    (∀ f : TxFaults, (UpdateStats db a p f).1 ≠ none → (UpdateStats db a p f).2 = db) := by
  refine ⟨rfl, ?_, ?_, ?_, rfl, ?_⟩
  · intro hnone
    have hfind : db.account_stats.find? (fun s => s.Account = a) = none := by
      simpa [List.find?_eq_none] using hnone
    have hnew : (UpdateStats db a p TxFaults.ok).2.account_stats.find?
        (fun s => s.Account = a) = some { Account := a, Trades := 1, Profit := p } := by
      show (upsertStats db.account_stats a p).find? _ = _
      rw [find_upsert_self, hfind]
    exact ⟨hnew, by simp only [GetStats, hnew]⟩
  · intro n q hfind
    have hnew : (UpdateStats db a p TxFaults.ok).2.account_stats.find?
        (fun s => s.Account = a) = some { Account := a, Trades := n + 1, Profit := q + p } := by
      show (upsertStats db.account_stats a p).find? _ = _
      rw [find_upsert_self, hfind]
    exact ⟨hnew, by simp only [GetStats, hnew]⟩
  · intro b hb
    exact find_upsert_other db.account_stats a b p hb
  · intro f hf
    unfold UpdateStats at hf ⊢
    cases hb : f.beginTx <;> cases he : f.execStmt <;> cases hc : f.commitTx <;>
      simp_all

/-! ## Queue store: theorems -/

lemma markRows_markRows (rows : List QRow) (id : Int) :
    markRows (markRows rows id) id = markRows rows id := by
  unfold markRows
  rw [List.map_map]
  apply List.map_congr_left
  intro r _
  by_cases h : r.trade.ID = id <;> simp [h]

lemma markRows_of_processed (rows : List QRow) (id : Int)
    (h : ∀ r ∈ rows, r.trade.ID = id → r.processed = true) : markRows rows id = rows := by
  unfold markRows
  conv_rhs => rw [← List.map_id rows]
  apply List.map_congr_left
  intro r hr
  by_cases hid : r.trade.ID = id
  · have hp := h r hr hid
    cases r with
    | mk trade processed =>
      simp only [] at hp
      simp [hid, hp]
  · simp [hid]

lemma markRows_forall₂ (rows : List QRow) (id : Int) :
    List.Forall₂
      (fun r r2 => r2.trade = r.trade ∧ r2.processed = (r.processed || decide (r.trade.ID = id)))
      rows (markRows rows id) := by
  induction rows with
  | nil => exact List.Forall₂.nil
  | cons r rows ih =>
    refine List.Forall₂.cons ?_ ih
    by_cases h : r.trade.ID = id <;> simp [h]

/-- C9: `MarkProcessed id` succeeds on every store when the storage call goes through (also
when the record is already processed, in which case the store is unchanged); the resulting
store differs from the original at most in the `processed` flag of the records with that id,
which is then true: row by row the trade columns are the same and the flag is the old flag or
"id matches", and the stats table and id sequence are the same; and marking twice gives the
same store as marking once. -/
theorem markProcessed_idempotent (db : DB) (id : Int) :
    (MarkProcessed db id none).1 = none ∧
    (MarkProcessed db id none).2.account_stats = db.account_stats ∧
    (MarkProcessed db id none).2.seq = db.seq ∧
    List.Forall₂
      (fun r r2 => r2.trade = r.trade ∧ r2.processed = (r.processed || decide (r.trade.ID = id)))
      db.trades_q (MarkProcessed db id none).2.trades_q ∧
    MarkProcessed (MarkProcessed db id none).2 id none = MarkProcessed db id none ∧
    ((∀ r ∈ db.trades_q, r.trade.ID = id → r.processed = true) →
      MarkProcessed db id none = (none, db)) := by
  refine ⟨rfl, rfl, rfl, markRows_forall₂ db.trades_q id, ?_, ?_⟩
  · simp [MarkProcessed, markRows_markRows]
  · intro h
    simp [MarkProcessed, markRows_of_processed db.trades_q id h]

lemma le_of_maxRowid (rows : List QRow) (r : QRow) (hr : r ∈ rows) :
    ∃ m, maxRowid rows = some m ∧ r.trade.ID ≤ m := by
  induction rows with
  | nil => cases hr
  | cons x rows ih =>
    rcases List.mem_cons.mp hr with rfl | hmem
    · cases hm : maxRowid rows with
      | none => exact ⟨r.trade.ID, by simp [maxRowid, hm], le_refl _⟩
      | some m => exact ⟨max r.trade.ID m, by simp [maxRowid, hm], le_max_left _ _⟩
    · obtain ⟨m, hm, hle⟩ := ih hmem
      exact ⟨max x.trade.ID m, by simp [maxRowid, hm], le_trans hle (le_max_right _ _)⟩

/-- The id given to a new row is larger than every id in the table. -/
lemma lt_newRowid (db : DB) (r : QRow) (hr : r ∈ db.trades_q) : r.trade.ID < newRowid db := by
  obtain ⟨m, hm, hle⟩ := le_of_maxRowid db.trades_q r hr
  have : m + 1 ≤ newRowid db := by
    unfold newRowid
    simp only [hm]
    exact le_max_left _ _
  omega

/-- The id given to a new row is larger than the recorded sequence value. -/
lemma seq_lt_newRowid (db : DB) : db.seq < newRowid db := by
  have : db.seq + 1 ≤ newRowid db := by
    unfold newRowid
    exact le_max_right _ _
  omega

/-- C10 (as stated, refuted): `EnqueueTrade` does not return the id it assigns. Enqueueing into
the empty store and then into the resulting store returns the same Go result (a nil error)
both times, while the two new records get the ids 1 and 2. -/
theorem enqueueTrade_returns_no_id :
    (EnqueueTrade emptyDB buyTrade none).1 = none ∧
    (EnqueueTrade (EnqueueTrade emptyDB buyTrade none).2 sellTrade none).1 = none ∧
    (EnqueueTrade emptyDB buyTrade none).2.trades_q.map (fun r => r.trade.ID) = [1] ∧
    (EnqueueTrade (EnqueueTrade emptyDB buyTrade none).2 sellTrade none).2.trades_q.map
      (fun r => r.trade.ID) = [1, 2] := by
  decide

/-- C10 (amended): without storage failure `EnqueueTrade` returns a nil error (whatever the
field values: nothing is validated) and appends exactly one record, which carries the given
account, symbol, volume, open, close and side, has processed = false and an id larger than
(so different from) the id of every existing record and than the recorded sequence value; the
existing queue records and all stats records are unchanged. The id is stored, not returned. -/
theorem enqueueTrade_appends (db : DB) (t : Trade) :
    (EnqueueTrade db t none).1 = none ∧
    (∃ r : QRow,
      (EnqueueTrade db t none).2.trades_q = db.trades_q ++ [r] ∧
      r.trade.Account = t.Account ∧ r.trade.Symbol = t.Symbol ∧ r.trade.Volume = t.Volume ∧
      r.trade.Open = t.Open ∧ r.trade.Close = t.Close ∧ r.trade.Side = t.Side ∧
      r.processed = false ∧
      (∀ old ∈ db.trades_q, old.trade.ID < r.trade.ID) ∧
      db.seq < r.trade.ID ∧
      (EnqueueTrade db t none).2.seq = r.trade.ID) ∧
    (EnqueueTrade db t none).2.account_stats = db.account_stats := by
  refine ⟨rfl, ⟨{ trade := { t with ID := newRowid db }, processed := false }, rfl, rfl, rfl,
    rfl, rfl, rfl, rfl, rfl, ?_, ?_, rfl⟩, rfl⟩
  · intro old hold
    exact lt_newRowid db old hold
  · exact seq_lt_newRowid db

/-! ## Processing one trade: theorems -/

/-- What `GetStats` reads for account `b` after an upsert for account `a`. -/
lemma getStats_upsert (db db2 : DB) (a b : String) (p : ℚ)
    (h : db2.account_stats = upsertStats db.account_stats a p) :
    (GetStats db2 b none).1.Trades = (GetStats db b none).1.Trades + (if b = a then 1 else 0) ∧
    (GetStats db2 b none).1.Profit = (GetStats db b none).1.Profit + (if b = a then p else 0) := by
  unfold GetStats
  simp only [h]
  by_cases hb : b = a
  · subst hb
    rw [find_upsert_self]
    cases db.account_stats.find? (fun s => s.Account = b) <;> simp
  · rw [find_upsert_other _ _ _ _ hb]
    cases db.account_stats.find? (fun s => s.Account = b) <;> simp [hb]

/-- `GetStats` reads only the stats table. -/
lemma getStats_congr (db db2 : DB) (b : String) (h : db2.account_stats = db.account_stats) :
    GetStats db2 b none = GetStats db b none := by
  unfold GetStats
  rw [h]

/-- `GetStats` without a storage failure returns no error and the requested account. -/
lemma getStats_ok (db : DB) (b : String) :
    (GetStats db b none).2 = none ∧ (GetStats db b none).1.Account = b := by
  unfold GetStats
  cases db.account_stats.find? (fun s => s.Account = b) <;> simp

/-- An account without a record reads as zero. -/
lemma getStats_zero (db : DB) (b : String) (h : ∀ s ∈ db.account_stats, s.Account ≠ b) :
    GetStats db b none = ({ Account := b, Trades := 0, Profit := 0 }, none) := by
  have hfind : db.account_stats.find? (fun s => s.Account = b) = none := by
    simpa [List.find?_eq_none] using h
  simp only [GetStats, hfind]

/-- `ProcessTrade` without a storage failure: the upsert, then the mark. -/
lemma processTrade_ok (db : DB) (t : Trade) :
    ProcessTrade db t TradeFaults.ok =
      (none,
        { db with
          account_stats := upsertStats db.account_stats t.Account (CalculateProfitFromTrade t)
          trades_q := markRows db.trades_q t.ID }) := rfl

lemma mem_markRows_of_pending (rows : List QRow) (t : Trade)
    (h : { trade := t, processed := false } ∈ rows) :
    { trade := t, processed := true } ∈ markRows rows t.ID := by
  unfold markRows
  refine List.mem_map.mpr ⟨{ trade := t, processed := false }, h, ?_⟩
  simp

lemma processed_of_mem_markRows (rows : List QRow) (id : Int) (r : QRow)
    (hr : r ∈ markRows rows id) (hid : r.trade.ID = id) : r.processed = true := by
  unfold markRows at hr
  obtain ⟨r0, _, rfl⟩ := List.mem_map.mp hr
  by_cases h : r0.trade.ID = id
  · simp [h]
  · simp [h] at hid

/-- C4: for every store and every trade `t` that is a pending record of the queue, without
storage failure `ProcessTrade t` returns no error, raises the trades count of `t.Account` by
exactly 1 (to 1 if the account had no record), changes its profit by exactly
`CalculateProfitFromTrade t`, leaves the stats of every other account as they were, and sets
processed = true on the record with id `t.ID` (the record of `t` is in the queue as processed,
and every record with that id is processed). -/
theorem processTrade_post (db : DB) (t : Trade)
    (hpending : { trade := t, processed := false } ∈ db.trades_q) :
    (ProcessTrade db t TradeFaults.ok).1 = none ∧
    (GetStats (ProcessTrade db t TradeFaults.ok).2 t.Account none).1.Trades =
      (GetStats db t.Account none).1.Trades + 1 ∧
    (GetStats (ProcessTrade db t TradeFaults.ok).2 t.Account none).1.Profit =
      (GetStats db t.Account none).1.Profit + CalculateProfitFromTrade t ∧
    ((∀ s ∈ db.account_stats, s.Account ≠ t.Account) →
      GetStats (ProcessTrade db t TradeFaults.ok).2 t.Account none =
        ({ Account := t.Account, Trades := 1, Profit := CalculateProfitFromTrade t }, none)) ∧
    (∀ b, b ≠ t.Account →
      GetStats (ProcessTrade db t TradeFaults.ok).2 b none = GetStats db b none) ∧
    { trade := t, processed := true } ∈ (ProcessTrade db t TradeFaults.ok).2.trades_q ∧
    (∀ r ∈ (ProcessTrade db t TradeFaults.ok).2.trades_q, r.trade.ID = t.ID →
      r.processed = true) := by
  rw [processTrade_ok]
  have hup := getStats_upsert db
    { db with
      account_stats := upsertStats db.account_stats t.Account (CalculateProfitFromTrade t)
      trades_q := markRows db.trades_q t.ID } t.Account t.Account (CalculateProfitFromTrade t) rfl
  simp only [if_true] at hup
  refine ⟨rfl, hup.1, hup.2, ?_, ?_, mem_markRows_of_pending _ t hpending, ?_⟩
  · intro hnone
    have hz := getStats_zero db t.Account hnone
    have hok := getStats_ok
      { db with
        account_stats := upsertStats db.account_stats t.Account (CalculateProfitFromTrade t)
        trades_q := markRows db.trades_q t.ID } t.Account
    rw [hz] at hup
    simp only [zero_add] at hup
    apply Prod.ext
    · cases hg : (GetStats
        { db with
          account_stats := upsertStats db.account_stats t.Account (CalculateProfitFromTrade t)
          trades_q := markRows db.trades_q t.ID } t.Account none).1 with
      | mk acc n q =>
        rw [hg] at hup hok
        simp only [] at hup hok
        simp [hup.1, hup.2, hok.2]
    · exact hok.1
  · intro b hb
    unfold GetStats
    simp only []
    rw [find_upsert_other _ _ _ _ hb]
  · intro r hr hid
    exact processed_of_mem_markRows db.trades_q t.ID r hr hid

/-- C4 at a concrete input: the buy trade of the scenario, pending with id 1 in
`oneTradeDB`. -/
theorem processTrade_post_witness :
    { trade := buyTrade1, processed := false } ∈ oneTradeDB.trades_q ∧
    (ProcessTrade oneTradeDB buyTrade1 TradeFaults.ok).1 = none ∧
    (GetStats (ProcessTrade oneTradeDB buyTrade1 TradeFaults.ok).2 buyTrade1.Account none).1.Trades
      = (GetStats oneTradeDB buyTrade1.Account none).1.Trades + 1 :=
  ⟨by decide,
    (processTrade_post oneTradeDB buyTrade1 (by decide)).1,
    (processTrade_post oneTradeDB buyTrade1 (by decide)).2.1⟩

/-! ## One tick without storage failure: theorems -/

lemma mem_pendingTrades (db : DB) (t : Trade) :
    t ∈ pendingTrades db ↔ { trade := t, processed := false } ∈ db.trades_q := by
  unfold pendingTrades
  constructor
  · intro h
    obtain ⟨r, hr, rfl⟩ := List.mem_map.mp h
    obtain ⟨hmem, hp⟩ := List.mem_filter.mp hr
    cases r with
    | mk trade processed =>
      simp only [decide_eq_true_eq] at hp
      subst hp
      exact hmem
  · intro h
    exact List.mem_map.mpr ⟨_, List.mem_filter.mpr ⟨h, by simp⟩, rfl⟩

/-- The loop of `ProcessPendingTrades` without storage failure, in closed form. -/
lemma processLoop_ok (ts : List Trade) :
    ∀ (db : DB) (c : Int) (log : List Error) (calls : List (Trade × Option Error)),
      processLoop ts [] db c log calls =
        { count := c + ts.length
          err := none
          db := ts.foldl (fun d t => (ProcessTrade d t TradeFaults.ok).2) db
          log := log
          calls := calls ++ ts.map (fun t => (t, none)) } := by
  induction ts with
  | nil =>
    intro db c log calls
    simp [processLoop]
  | cons t ts ih =>
    intro db c log calls
    rw [processLoop]
    simp only [List.headD_nil, List.tail_nil, processTrade_ok]
    rw [ih]
    simp only [List.foldl_cons, processTrade_ok, List.map_cons, List.append_assoc,
      List.singleton_append, List.length_cons, Nat.cast_add, Nat.cast_one]
    congr 1
    omega

/-- The queue after processing the trades `ts` without failure: a row is processed if it was,
or if its id is the id of one of the trades. -/
lemma foldl_queue (ts : List Trade) :
    ∀ db : DB,
      (ts.foldl (fun d t => (ProcessTrade d t TradeFaults.ok).2) db).trades_q =
        db.trades_q.map (fun r =>
          if r.trade.ID ∈ ts.map (fun t => t.ID) then { r with processed := true } else r) := by
  induction ts with
  | nil =>
    intro db
    simp
  | cons t ts ih =>
    intro db
    rw [List.foldl_cons, ih, processTrade_ok]
    simp only [markRows, List.map_map]
    apply List.map_congr_left
    intro r _
    simp only [Function.comp, List.map_cons, List.mem_cons]
    by_cases h1 : r.trade.ID = t.ID <;> by_cases h2 : r.trade.ID ∈ ts.map (fun t => t.ID) <;>
      simp only [h1, h2, if_true, if_false, true_or, or_false, or_true, false_or, ite_self]

/-- The stats read for account `b` after processing the trades `ts` without failure. -/
lemma foldl_stats (ts : List Trade) (b : String) :
    ∀ db : DB,
      (GetStats (ts.foldl (fun d t => (ProcessTrade d t TradeFaults.ok).2) db) b none).1.Trades =
          (GetStats db b none).1.Trades + (tradesOf ts b).length ∧
      (GetStats (ts.foldl (fun d t => (ProcessTrade d t TradeFaults.ok).2) db) b none).1.Profit =
          (GetStats db b none).1.Profit + totalProfit (tradesOf ts b) := by
  induction ts with
  | nil =>
    intro db
    simp [tradesOf, totalProfit]
  | cons t ts ih =>
    intro db
    rw [List.foldl_cons]
    obtain ⟨ih1, ih2⟩ := ih (ProcessTrade db t TradeFaults.ok).2
    obtain ⟨h1, h2⟩ := getStats_upsert db (ProcessTrade db t TradeFaults.ok).2 t.Account b
      (CalculateProfitFromTrade t) rfl
    rw [ih1, ih2, h1, h2]
    by_cases hb : t.Account = b
    · subst hb
      simp only [tradesOf, totalProfit, List.filter_cons, decide_True, if_true,
        List.length_cons, List.map_cons, List.sum_cons, Nat.cast_add, Nat.cast_one]
      constructor
      · omega
      · ring
    · have hb2 : ¬ b = t.Account := fun h => hb h.symm
      simp only [tradesOf, totalProfit, List.filter_cons, hb, hb2, decide_False, if_false,
        add_zero]
      simp

/-- No record is pending after every pending record was marked. -/
lemma pending_after_marks (db db2 : DB)
    (h : db2.trades_q = db.trades_q.map (fun r =>
      if r.trade.ID ∈ (pendingTrades db).map (fun t => t.ID) then { r with processed := true }
      else r)) :
    pendingTrades db2 = [] := by
  unfold pendingTrades
  rw [h, List.map_eq_nil_iff, List.filter_eq_nil_iff]
  intro r hr
  obtain ⟨r0, hr0, rfl⟩ := List.mem_map.mp hr
  by_cases hid : r0.trade.ID ∈ (pendingTrades db).map (fun t => t.ID)
  · simp [hid]
  · have hp : r0.processed = true := by
      cases r0 with
      | mk trade processed =>
        cases processed with
        | true => rfl
        | false =>
          exact absurd (List.mem_map.mpr ⟨trade, (mem_pendingTrades db trade).mpr hr0, rfl⟩) hid
    simp [hid, hp]

/-- A tick without storage failure, in closed form. -/
lemma processPendingTrades_ok (db : DB) :
    ProcessPendingTrades db TickFaults.ok =
      { count := (pendingTrades db).length
        err := none
        db := (pendingTrades db).foldl (fun d t => (ProcessTrade d t TradeFaults.ok).2) db
        log := []
        calls := (pendingTrades db).map (fun t => (t, none)) } := by
  simp [ProcessPendingTrades, FetchPendingTrades, TickFaults.ok, processLoop_ok]

/-- C5: for every store, with N the number of trades `FetchPendingTrades` returns, one call of
`ProcessPendingTrades` without storage failure returns (N, nil); afterwards
`FetchPendingTrades` returns no records; and for every account the trades count has grown by
the number of fetched trades of that account and the profit by the sum of their signed
profits. -/
theorem drain_complete (db : DB) :
    (ProcessPendingTrades db TickFaults.ok).count = (FetchPendingTrades db none).1.length ∧
    (ProcessPendingTrades db TickFaults.ok).err = none ∧
    FetchPendingTrades (ProcessPendingTrades db TickFaults.ok).db none = ([], none) ∧
    ∀ account : String,
      (GetStats (ProcessPendingTrades db TickFaults.ok).db account none).1.Trades =
        (GetStats db account none).1.Trades +
          (tradesOf (FetchPendingTrades db none).1 account).length ∧
      (GetStats (ProcessPendingTrades db TickFaults.ok).db account none).1.Profit =
        (GetStats db account none).1.Profit +
          totalProfit (tradesOf (FetchPendingTrades db none).1 account) := by
  rw [processPendingTrades_ok]
  refine ⟨rfl, rfl, ?_, ?_⟩
  · have := pending_after_marks db _ (foldl_queue (pendingTrades db) db)
    simp only [FetchPendingTrades, this]
  · intro account
    exact foldl_stats (pendingTrades db) account db

/-! ## One tick under storage failures: theorems -/

/-- The queue after `ProcessTrade`: marked when it returned no error, untouched otherwise. -/
lemma processTrade_queue (db : DB) (t : Trade) (f : TradeFaults) :
    ((ProcessTrade db t f).1 = none →
      (ProcessTrade db t f).2.trades_q = markRows db.trades_q t.ID) ∧
    ((ProcessTrade db t f).1 ≠ none → (ProcessTrade db t f).2.trades_q = db.trades_q) := by
  unfold ProcessTrade UpdateStats MarkProcessed
  cases f.stats.beginTx <;> cases f.stats.execStmt <;> cases f.stats.commitTx <;>
    cases f.mark <;> simp

/-- The loop of `ProcessPendingTrades` under any storage failures: it makes one call per trade
of the batch, in order, returns no error, counts the calls that returned no error, logs the
errors of the others, and marks exactly the ids of the trades whose call returned no error. -/
lemma processLoop_spec (ts : List Trade) :
    ∀ (fs : List TradeFaults) (db : DB) (c : Int) (log : List Error)
      (calls : List (Trade × Option Error)),
      ∃ new : List (Trade × Option Error),
        (processLoop ts fs db c log calls).calls = calls ++ new ∧
        new.map Prod.fst = ts ∧
        (processLoop ts fs db c log calls).err = none ∧
        (processLoop ts fs db c log calls).count = c + (new.filter (fun x => x.2.isNone)).length ∧
        (processLoop ts fs db c log calls).log = log ++ new.filterMap Prod.snd ∧
        (processLoop ts fs db c log calls).db.trades_q =
          db.trades_q.map (fun r =>
            if r.trade.ID ∈ (new.filter (fun x => x.2.isNone)).map (fun x => x.1.ID) then
              { r with processed := true }
            else r) := by
  induction ts with
  | nil =>
    intro fs db c log calls
    exact ⟨[], by simp [processLoop]⟩
  | cons t ts ih =>
    intro fs db c log calls
    rw [processLoop]
    have hq := processTrade_queue db t (fs.headD TradeFaults.ok)
    cases hres : ProcessTrade db t (fs.headD TradeFaults.ok) with
    | mk e db1 =>
      rw [hres] at hq
      cases e with
      | some e =>
        obtain ⟨new, h1, h2, h3, h4, h5, h6⟩ :=
          ih fs.tail db1 c (log ++ [e]) (calls ++ [(t, some e)])
        refine ⟨(t, some e) :: new, ?_, ?_, h3, ?_, ?_, ?_⟩
        · simp [h1]
        · simp [h2]
        · simp [h4]
        · simp [h5]
        · have hq2 : db1.trades_q = db.trades_q := hq.2 (by simp)
          simp only [h6, hq2, List.filter_cons, Option.isNone_some, Bool.false_eq_true,
            if_false]
      | none =>
        obtain ⟨new, h1, h2, h3, h4, h5, h6⟩ :=
          ih fs.tail db1 (c + 1) log (calls ++ [(t, none)])
        refine ⟨(t, none) :: new, ?_, ?_, h3, ?_, ?_, ?_⟩
        · simp [h1]
        · simp [h2]
        · simp only [h4, List.filter_cons, Option.isNone_none, if_true, List.length_cons,
            Nat.cast_add, Nat.cast_one]
          omega
        · simp [h5]
        · have hq2 : db1.trades_q = markRows db.trades_q t.ID := hq.1 rfl
          simp only [h6, hq2, markRows, List.map_map, List.filter_cons, Option.isNone_none,
            if_true, List.map_cons, List.mem_cons]
          apply List.map_congr_left
          intro r _
          simp only [Function.comp]
          by_cases h1 : r.trade.ID = t.ID <;>
            by_cases h2 : r.trade.ID ∈
              (new.filter (fun x => x.2.isNone)).map (fun x => x.1.ID) <;>
            simp only [h1, h2, if_true, if_false, true_or, or_false, or_true, false_or, ite_self]

lemma pendingTrades_ids_nodup (db : DB) (h : UniqueIds db) :
    ((pendingTrades db).map (fun t => t.ID)).Nodup := by
  unfold pendingTrades
  rw [List.map_map]
  exact List.Nodup.sublist (List.Sublist.map _ (List.filter_sublist _)) h

/-- A tick whose fetch goes through is the loop over the pending trades. -/
lemma processPendingTrades_fetched (db : DB) (f : TickFaults) (hfetch : f.fetch = none) :
    ProcessPendingTrades db f = processLoop (pendingTrades db) f.trades db 0 [] [] := by
  simp [ProcessPendingTrades, FetchPendingTrades, hfetch]

/-- A tick whose fetch fails makes no call and leaves the store as it was. -/
lemma processPendingTrades_fetch_failed (db : DB) (f : TickFaults) (hfetch : f.fetch ≠ none) :
    (ProcessPendingTrades db f).calls = [] ∧ (ProcessPendingTrades db f).db = db ∧
    (ProcessPendingTrades db f).count = 0 ∧ (ProcessPendingTrades db f).err ≠ none := by
  unfold ProcessPendingTrades FetchPendingTrades
  cases hf : f.fetch with
  | none => exact absurd hf hfetch
  | some ff => cases ff <;> simp

/-- C7: for every store that respects the primary key of the queue and every pattern of
failures of the per-trade storage calls, a tick whose fetch goes through calls `ProcessTrade`
once on every fetched trade, in batch order (a failure does not stop the loop), returns a nil
error and a count equal to the number of calls that returned no error, logs the errors of the
other calls, and every trade whose call returned an error is still a queue record with
processed = false, so that the next `FetchPendingTrades` returns it again. -/
theorem batch_error_isolation (db : DB) (f : TickFaults) (hfetch : f.fetch = none)
    (hids : UniqueIds db) :
    (ProcessPendingTrades db f).err = none ∧
    (ProcessPendingTrades db f).calls.map Prod.fst = (FetchPendingTrades db none).1 ∧
    (ProcessPendingTrades db f).count =
      ((ProcessPendingTrades db f).calls.filter (fun x => x.2.isNone)).length ∧
    (ProcessPendingTrades db f).log = (ProcessPendingTrades db f).calls.filterMap Prod.snd ∧
    ∀ x ∈ (ProcessPendingTrades db f).calls, x.2 ≠ none →
      { trade := x.1, processed := false } ∈ (ProcessPendingTrades db f).db.trades_q ∧
      x.1 ∈ (FetchPendingTrades (ProcessPendingTrades db f).db none).1 := by
  rw [processPendingTrades_fetched db f hfetch]
  obtain ⟨new, h1, h2, h3, h4, h5, h6⟩ := processLoop_spec (pendingTrades db) f.trades db 0 [] []
  rw [List.nil_append] at h1 h5
  rw [zero_add] at h4
  rw [h1, h3, h4, h5]
  refine ⟨rfl, h2, rfl, rfl, ?_⟩
  intro x hx hfail
  have hnd : (new.map (fun y => y.1.ID)).Nodup := by
    have := pendingTrades_ids_nodup db hids
    rw [← h2, List.map_map] at this
    exact this
  have hpend : x.1 ∈ pendingTrades db := by
    rw [← h2]
    exact List.mem_map.mpr ⟨x, hx, rfl⟩
  have hrow : { trade := x.1, processed := false } ∈ db.trades_q :=
    (mem_pendingTrades db x.1).mp hpend
  have hnot : x.1.ID ∉ (new.filter (fun y => y.2.isNone)).map (fun y => y.1.ID) := by
    intro hmem
    obtain ⟨y, hy, hyid⟩ := List.mem_map.mp hmem
    obtain ⟨hynew, hynone⟩ := List.mem_filter.mp hy
    have hxy : y = x := List.inj_on_of_nodup_map hnd hynew hx hyid
    rw [hxy] at hynone
    cases hx2 : x.2 with
    | none => exact hfail hx2
    | some e => simp [hx2] at hynone
  have hkept : { trade := x.1, processed := false } ∈
      (processLoop (pendingTrades db) f.trades db 0 [] []).db.trades_q := by
    rw [h6]
    refine List.mem_map.mpr ⟨{ trade := x.1, processed := false }, hrow, ?_⟩
    simp only [hnot, if_false]
  exact ⟨hkept, (mem_pendingTrades _ x.1).mpr hkept⟩

/-- C7 at a concrete input: the two-trade scenario with a failing stats update on the first
trade; the second trade is still processed and counted, the first stays pending. -/
theorem batch_error_isolation_witness :
    statsFailure.fetch = none ∧ UniqueIds scenarioDB ∧
    (ProcessPendingTrades scenarioDB statsFailure).err = none ∧
    (ProcessPendingTrades scenarioDB statsFailure).count = 1 ∧
    (ProcessPendingTrades scenarioDB statsFailure).calls.map (fun x => (x.1.ID, x.2.isSome)) =
      [(1, true), (2, false)] ∧
    (FetchPendingTrades (ProcessPendingTrades scenarioDB statsFailure).db none).1.map
      (fun t => t.ID) = [1] ∧
    (ProcessPendingTrades scenarioDB statsFailure).calls.map Prod.fst =
      (FetchPendingTrades scenarioDB none).1 :=
  ⟨rfl, by decide, by decide, by decide, by decide, by decide,
    (batch_error_isolation scenarioDB statsFailure rfl (by decide)).2.1⟩

/-- C8: `ProcessPendingTrades` passes to `ProcessTrade` only records whose processed flag is
false (under any storage failures); and for every store, when no storage operation fails and
nothing is enqueued in between, a second call of `ProcessPendingTrades` makes no call to
`ProcessTrade`, returns (0, nil) and leaves the store, queue and stats, exactly as the first
call left it. -/
theorem second_tick_noop (db : DB) :
    (∀ f : TickFaults, ∀ x ∈ (ProcessPendingTrades db f).calls,
      { trade := x.1, processed := false } ∈ db.trades_q) ∧
    ProcessPendingTrades (ProcessPendingTrades db TickFaults.ok).db TickFaults.ok =
      { count := 0
        err := none
        db := (ProcessPendingTrades db TickFaults.ok).db
        log := []
        calls := [] } ∧
    (∀ account : String,
      GetStats (ProcessPendingTrades (ProcessPendingTrades db TickFaults.ok).db
          TickFaults.ok).db account none =
        GetStats (ProcessPendingTrades db TickFaults.ok).db account none) := by
  have hsecond : ProcessPendingTrades (ProcessPendingTrades db TickFaults.ok).db TickFaults.ok =
      { count := 0
        err := none
        db := (ProcessPendingTrades db TickFaults.ok).db
        log := []
        calls := [] } := by
    have hnil : pendingTrades (ProcessPendingTrades db TickFaults.ok).db = [] := by
      rw [processPendingTrades_ok]
      exact pending_after_marks db _ (foldl_queue (pendingTrades db) db)
    rw [processPendingTrades_ok (ProcessPendingTrades db TickFaults.ok).db, hnil]
    rfl
  refine ⟨?_, hsecond, ?_⟩
  · intro f x hx
    by_cases hfetch : f.fetch = none
    · rw [processPendingTrades_fetched db f hfetch] at hx
      obtain ⟨new, h1, h2, -⟩ := processLoop_spec (pendingTrades db) f.trades db 0 [] []
      rw [h1, List.nil_append] at hx
      apply (mem_pendingTrades db x.1).mp
      rw [← h2]
      exact List.mem_map.mpr ⟨x, hx, rfl⟩
    · rw [(processPendingTrades_fetch_failed db f hfetch).1] at hx
      cases hx
  · intro account
    rw [hsecond]

/-! ## The aggregate invariant: theorems -/

/-- Marking the pending record of `t`, in a table without duplicate ids, adds `t` to the
processed records and changes nothing else. -/
lemma processed_markRows_perm (t : Trade) (rows : List QRow)
    (hnd : (rows.map (fun r => r.trade.ID)).Nodup)
    (hmem : { trade := t, processed := false } ∈ rows) :
    List.Perm
      (((markRows rows t.ID).filter (fun r => r.processed = true)).map (fun r => r.trade))
      (t :: (rows.filter (fun r => r.processed = true)).map (fun r => r.trade)) := by
  induction rows with
  | nil => cases hmem
  | cons r rest ih =>
    rw [List.map_cons, List.nodup_cons] at hnd
    obtain ⟨hnot, hrest⟩ := hnd
    rcases List.mem_cons.mp hmem with heq | hin
    · subst heq
      have hsame : markRows rest t.ID = rest := by
        apply markRows_of_processed
        intro r2 hr2 hid
        exact absurd (List.mem_map.mpr ⟨r2, hr2, hid⟩) hnot
      have hcons : markRows ({ trade := t, processed := false } :: rest) t.ID =
          { trade := t, processed := true } :: markRows rest t.ID := by
        simp [markRows]
      rw [hcons, hsame]
      simp
    · have hne : r.trade.ID ≠ t.ID := by
        intro hid
        exact hnot (List.mem_map.mpr ⟨{ trade := t, processed := false }, hin, hid.symm⟩)
      have hcons : markRows (r :: rest) t.ID = r :: markRows rest t.ID := by
        simp [markRows, hne]
      rw [hcons]
      have ih2 := ih hrest hin
      by_cases hp : r.processed = true
      · simp only [List.filter_cons, hp, decide_True, if_true, List.map_cons]
        exact (List.Perm.cons _ ih2).trans (List.Perm.swap _ _ _)
      · simp only [List.filter_cons, hp, decide_False, if_false]
        exact ih2

/-- A successful `ProcessTrade` on a pending record keeps the primary key and the aggregate
invariant. -/
lemma processTrade_invariant (db db1 : DB) (t : Trade)
    (hstats : db1.account_stats =
      upsertStats db.account_stats t.Account (CalculateProfitFromTrade t))
    (hqueue : db1.trades_q = markRows db.trades_q t.ID)
    (hu : UniqueIds db) (hinv : AggregateInvariant db)
    (hpend : { trade := t, processed := false } ∈ db.trades_q) :
    UniqueIds db1 ∧ AggregateInvariant db1 := by
  constructor
  · unfold UniqueIds at hu ⊢
    rw [hqueue]
    have : (markRows db.trades_q t.ID).map (fun r => r.trade.ID) =
        db.trades_q.map (fun r => r.trade.ID) := by
      unfold markRows
      rw [List.map_map]
      apply List.map_congr_left
      intro r _
      by_cases h : r.trade.ID = t.ID <;> simp [h]
    rw [this]
    exact hu
  · intro b
    obtain ⟨h1, h2⟩ := getStats_upsert db db1 t.Account b (CalculateProfitFromTrade t) hstats
    obtain ⟨i1, i2⟩ := hinv b
    have hperm : List.Perm (tradesOf (processedTrades db1) b)
        (tradesOf (t :: processedTrades db) b) := by
      unfold tradesOf processedTrades
      rw [hqueue]
      exact List.Perm.filter _ (processed_markRows_perm t db.trades_q hu hpend)
    have hlen := hperm.length_eq
    have hsum : totalProfit (tradesOf (processedTrades db1) b) =
        totalProfit (tradesOf (t :: processedTrades db) b) := by
      unfold totalProfit
      exact (hperm.map CalculateProfitFromTrade).sum_eq
    rw [h1, h2, hlen, hsum, i1, i2]
    by_cases hb : t.Account = b
    · subst hb
      simp only [tradesOf, totalProfit, List.filter_cons, decide_True, if_true,
        List.length_cons, List.map_cons, List.sum_cons, Nat.cast_add, Nat.cast_one]
      constructor <;> first | trivial | omega | ring
    · have hb2 : ¬ b = t.Account := fun h => hb h.symm
      simp only [tradesOf, totalProfit, List.filter_cons, hb, hb2, decide_False, if_false,
        add_zero]
      simp

/-- With a `MarkProcessed` that does not fail, `ProcessTrade` either does both updates or
returns an error and leaves the store as it was. -/
lemma processTrade_mark_ok (db : DB) (t : Trade) (f : TradeFaults) (hmark : f.mark = none) :
    ProcessTrade db t f = ProcessTrade db t TradeFaults.ok ∨
    ∃ e, ProcessTrade db t f = (some e, db) := by
  unfold ProcessTrade UpdateStats MarkProcessed
  rw [hmark]
  cases f.stats.beginTx <;> cases f.stats.execStmt <;> cases f.stats.commitTx <;>
    simp [TradeFaults.ok, TxFaults.ok]

/-- The loop of `ProcessPendingTrades` over pending records with distinct ids keeps the
primary key and the aggregate invariant, as long as no `MarkProcessed` call fails. -/
lemma processLoop_invariant (ts : List Trade) :
    ∀ (fs : List TradeFaults) (db : DB) (c : Int) (log : List Error)
      (calls : List (Trade × Option Error)),
      (∀ tf ∈ fs, tf.mark = none) → UniqueIds db → AggregateInvariant db →
      (∀ t ∈ ts, { trade := t, processed := false } ∈ db.trades_q) →
      (ts.map (fun t => t.ID)).Nodup →
      UniqueIds (processLoop ts fs db c log calls).db ∧
      AggregateInvariant (processLoop ts fs db c log calls).db := by
  induction ts with
  | nil =>
    intro fs db c log calls _ hu hinv _ _
    exact ⟨hu, hinv⟩
  | cons t ts ih =>
    intro fs db c log calls hfs hu hinv hpend hnd
    rw [List.map_cons, List.nodup_cons] at hnd
    obtain ⟨hnot, hnd2⟩ := hnd
    have hmark : (fs.headD TradeFaults.ok).mark = none := by
      cases fs with
      | nil => rfl
      | cons f0 fs0 => exact hfs f0 (List.mem_cons_self _ _)
    have htail : ∀ tf ∈ fs.tail, tf.mark = none := fun tf htf => hfs tf (List.mem_of_mem_tail htf)
    rw [processLoop]
    rcases processTrade_mark_ok db t (fs.headD TradeFaults.ok) hmark with hok | ⟨e, herr⟩
    · rw [hok, processTrade_ok]
      obtain ⟨hu1, hinv1⟩ := processTrade_invariant db
        { db with
          account_stats := upsertStats db.account_stats t.Account (CalculateProfitFromTrade t)
          trades_q := markRows db.trades_q t.ID } t rfl rfl hu hinv
        (hpend t (List.mem_cons_self _ _))
      apply ih fs.tail _ _ _ _ htail hu1 hinv1 _ hnd2
      intro t2 ht2
      have hrow := hpend t2 (List.mem_cons_of_mem _ ht2)
      have hne : t2.ID ≠ t.ID := by
        intro hid
        exact hnot (List.mem_map.mpr ⟨t2, ht2, hid⟩)
      show _ ∈ markRows db.trades_q t.ID
      unfold markRows
      refine List.mem_map.mpr ⟨_, hrow, ?_⟩
      simp [hne]
    · rw [herr]
      exact ih fs.tail db _ _ _ htail hu hinv
        (fun t2 ht2 => hpend t2 (List.mem_cons_of_mem _ ht2)) hnd2

/-- `EnqueueTrade`, failing or not, keeps the primary key and the aggregate invariant. -/
lemma enqueueTrade_invariant (db : DB) (t : Trade) (f : Fault)
    (hu : UniqueIds db) (hinv : AggregateInvariant db) :
    UniqueIds (EnqueueTrade db t f).2 ∧ AggregateInvariant (EnqueueTrade db t f).2 := by
  cases f with
  | some e => exact ⟨hu, hinv⟩
  | none =>
    constructor
    · unfold UniqueIds at hu ⊢
      show ((db.trades_q ++ [_]).map (fun r : QRow => r.trade.ID)).Nodup
      rw [List.map_append, List.map_singleton]
      refine List.Nodup.append hu (List.nodup_singleton _) ?_
      rw [List.disjoint_singleton]
      intro hmem
      obtain ⟨r, hr, hid⟩ := List.mem_map.mp hmem
      have hlt : r.trade.ID < newRowid db := lt_newRowid db r hr
      have hid2 : r.trade.ID = newRowid db := hid
      omega
    · intro b
      have hproc : processedTrades (EnqueueTrade db t none).2 = processedTrades db := by
        unfold processedTrades
        show ((db.trades_q ++ [_]).filter _).map _ = _
        simp [List.filter_append]
      rw [hproc, getStats_congr db (EnqueueTrade db t none).2 b rfl]
      exact hinv b

/-- C3 (as stated, refuted): the store reached from the empty store by enqueueing one buy trade
for "acc1" and running one tick in which the stats update goes through and `MarkProcessed`
fails has trades = 1 stored for "acc1" while no record of "acc1" is processed; the next tick,
without failure, counts the trade again (trades = 2, profit = 200000, one processed record of
profit 100000). So the aggregate invariant does not hold in every reachable store. -/
theorem aggregate_invariant_broken :
    Reachable (fun _ => True) (ProcessPendingTrades oneTradeDB markFailure).db ∧
    (GetStats (ProcessPendingTrades oneTradeDB markFailure).db "acc1" none).1.Trades = 1 ∧
    (tradesOf (processedTrades (ProcessPendingTrades oneTradeDB markFailure).db) "acc1").length
      = 0 ∧
    GetStats (ProcessPendingTrades (ProcessPendingTrades oneTradeDB markFailure).db
        TickFaults.ok).db "acc1" none =
      ({ Account := "acc1", Trades := 2, Profit := 200000 }, none) ∧
    processedTrades (ProcessPendingTrades (ProcessPendingTrades oneTradeDB markFailure).db
        TickFaults.ok).db = [buyTrade1] ∧
    ¬ (∀ db : DB, Reachable (fun _ => True) db → AggregateInvariant db) := by
  have hreach : Reachable (fun _ => True) (ProcessPendingTrades oneTradeDB markFailure).db :=
    Reachable.tick oneTradeDB markFailure trivial
      (Reachable.enqueue emptyDB buyTrade none Reachable.init)
  refine ⟨hreach, by decide, by decide, by decide!, by decide!, ?_⟩
  intro hall
  have h := (hall _ hreach "acc1").1
  revert h
  decide

/-- C3 (amended): in every store reachable from the empty store through `EnqueueTrade` calls
(failing or not) and worker ticks, complete or stopped between two `ProcessTrade` calls, in
which no `MarkProcessed` call fails (failures of the fetch and of the stats update are
allowed), no two queue records share an id, and for every account the stored trades count
equals the number of queue records of that account with processed = true and the stored profit
equals the sum of those records' signed profits. -/
theorem aggregate_invariant_of_marks_ok (db : DB) (h : Reachable TickFaults.marksOk db) :
    UniqueIds db ∧ AggregateInvariant db := by
  induction h with
  | init =>
    refine ⟨List.nodup_nil, ?_⟩
    intro b
    exact ⟨rfl, rfl⟩
  | enqueue db t f _ ih => exact enqueueTrade_invariant db t f ih.1 ih.2
  | tick db f hf _ ih =>
    by_cases hfetch : f.fetch = none
    · rw [processPendingTrades_fetched db f hfetch]
      exact processLoop_invariant (pendingTrades db) f.trades db 0 [] [] hf ih.1 ih.2
        (fun t ht => (mem_pendingTrades db t).mp ht) (pendingTrades_ids_nodup db ih.1)
    · rw [(processPendingTrades_fetch_failed db f hfetch).2.1]
      exact ih
  | stopped db f k hf _ ih =>
    refine processLoop_invariant ((pendingTrades db).take k) f.trades db 0 [] [] hf ih.1 ih.2
      (fun t ht => (mem_pendingTrades db t).mp (List.mem_of_mem_take ht)) ?_
    exact List.Nodup.sublist (List.Sublist.map _ (List.take_sublist _ _))
      (pendingTrades_ids_nodup db ih.1)

/-- C3 (amended) at a concrete input: the two-trade scenario after a tick in which the stats
update of the first trade fails. -/
theorem aggregate_invariant_of_marks_ok_witness :
    Reachable TickFaults.marksOk (ProcessPendingTrades scenarioDB statsFailure).db ∧
    UniqueIds (ProcessPendingTrades scenarioDB statsFailure).db ∧
    AggregateInvariant (ProcessPendingTrades scenarioDB statsFailure).db :=
  ⟨Reachable.tick scenarioDB statsFailure (by decide)
      (Reachable.enqueue _ sellTrade none (Reachable.enqueue emptyDB buyTrade none Reachable.init)),
    aggregate_invariant_of_marks_ok _
      (Reachable.tick scenarioDB statsFailure (by decide)
        (Reachable.enqueue _ sellTrade none
          (Reachable.enqueue emptyDB buyTrade none Reachable.init)))⟩

/-! ## Reading the queue: theorems -/

lemma pending_rows_eq (rows : List QRow) :
    ((rows.filter (fun r => r.processed = false)).map (fun r => r.trade)).map
        (fun t => ({ trade := t, processed := false } : QRow)) =
      rows.filter (fun r => r.processed = false) := by
  rw [List.map_map]
  conv_rhs => rw [← List.map_id (rows.filter (fun r => r.processed = false))]
  apply List.map_congr_left
  intro r hr
  have hp : r.processed = false := by
    simpa using (List.mem_filter.mp hr).2
  cases r with
  | mk trade processed =>
    simp only [] at hp
    simp [hp]

lemma pending_count (rows : List QRow) (t : Trade) :
    ((rows.filter (fun r => r.processed = false)).map (fun r => r.trade)).count t =
      rows.count { trade := t, processed := false } := by
  induction rows with
  | nil => rfl
  | cons r rest ih =>
    cases r with
    | mk trade processed =>
      cases processed with
      | false =>
        by_cases h : trade = t
        · subst h
          simpa [List.filter_cons] using ih
        · have h2 : ¬ t = trade := fun h2 => h h2.symm
          simpa [List.filter_cons, List.count_cons, h, h2] using ih
      | true =>
        simpa [List.filter_cons, List.count_cons] using ih

lemma pendingTrades_ids_sorted (db : DB) (h : SortedIds db) :
    ((pendingTrades db).map (fun t => t.ID)).Pairwise (fun a b => a < b) := by
  unfold pendingTrades
  rw [List.map_map]
  exact List.Pairwise.sublist (List.Sublist.map _ (List.filter_sublist _)) h

/-- The loop of `ProcessPendingTrades` changes no id of the queue, whatever fails. -/
lemma processLoop_ids (ts : List Trade) (fs : List TradeFaults) (db : DB) (c : Int)
    (log : List Error) (calls : List (Trade × Option Error)) :
    (processLoop ts fs db c log calls).db.trades_q.map (fun r => r.trade.ID) =
      db.trades_q.map (fun r => r.trade.ID) := by
  obtain ⟨new, -, -, -, -, -, h6⟩ := processLoop_spec ts fs db c log calls
  rw [h6, List.map_map]
  apply List.map_congr_left
  intro r _
  simp only [Function.comp]
  split <;> rfl

/-- A tick changes no id of the queue, whatever fails. -/
lemma processPendingTrades_ids (db : DB) (f : TickFaults) :
    (ProcessPendingTrades db f).db.trades_q.map (fun r => r.trade.ID) =
      db.trades_q.map (fun r => r.trade.ID) := by
  by_cases hfetch : f.fetch = none
  · rw [processPendingTrades_fetched db f hfetch]
    exact processLoop_ids _ _ _ _ _ _
  · rw [(processPendingTrades_fetch_failed db f hfetch).2.1]

/-- `EnqueueTrade` appends at the end of the row-id order. -/
lemma enqueueTrade_sorted (db : DB) (t : Trade) (f : Fault) (h : SortedIds db) :
    SortedIds (EnqueueTrade db t f).2 := by
  cases f with
  | some e => exact h
  | none =>
    unfold SortedIds at h ⊢
    show ((db.trades_q ++ [_]).map (fun r : QRow => r.trade.ID)).Pairwise _
    rw [List.map_append, List.map_singleton, List.pairwise_append]
    refine ⟨h, List.pairwise_singleton _ _, ?_⟩
    intro a ha b hb
    obtain ⟨r, hr, rfl⟩ := List.mem_map.mp ha
    rw [List.mem_singleton] at hb
    subst hb
    exact lt_newRowid db r hr

/-- Every store reachable from the empty store holds its queue in ascending id order. -/
lemma reachable_sorted (allowed : TickFaults → Prop) (db : DB) (h : Reachable allowed db) :
    SortedIds db := by
  induction h with
  | init => exact List.Pairwise.nil
  | enqueue db t f _ ih => exact enqueueTrade_sorted db t f ih
  | tick db f _ _ ih =>
    unfold SortedIds at ih ⊢
    rw [processPendingTrades_ids]
    exact ih
  | stopped db f k _ _ ih =>
    unfold SortedIds at ih ⊢
    rw [processLoop_ids]
    exact ih

/-- C11: for every store, `FetchPendingTrades` (when the query goes through) returns no error
and exactly the queue records whose processed flag is false: a trade is returned if and only
if it is a pending record, with its stored id and fields; it is returned as many times as it
is a pending record (once, ids being unique); the result, read as pending rows, is the list of
pending rows of the table in table order, so no processed record is in it; the order is
insertion order, ascending id, in every store held in row-id order and so in every store
reachable from the empty store. The function is a query: it has no store result. -/
theorem fetchPendingTrades_contract (db : DB) :
    (FetchPendingTrades db none).2 = none ∧
    (∀ t, t ∈ (FetchPendingTrades db none).1 ↔
      { trade := t, processed := false } ∈ db.trades_q) ∧
    (∀ t, (FetchPendingTrades db none).1.count t =
      db.trades_q.count { trade := t, processed := false }) ∧
    (FetchPendingTrades db none).1.map (fun t => ({ trade := t, processed := false } : QRow)) =
      db.trades_q.filter (fun r => r.processed = false) ∧
    ((FetchPendingTrades db none).1.map
      (fun t => ({ trade := t, processed := false } : QRow))).Sublist db.trades_q ∧
    (SortedIds db →
      ((FetchPendingTrades db none).1.map (fun t => t.ID)).Pairwise (fun a b => a < b)) ∧
    (Reachable (fun _ => True) db →
      ((FetchPendingTrades db none).1.map (fun t => t.ID)).Pairwise (fun a b => a < b)) := by
  refine ⟨rfl, fun t => mem_pendingTrades db t, fun t => pending_count db.trades_q t,
    pending_rows_eq db.trades_q, ?_, pendingTrades_ids_sorted db, ?_⟩
  · show ((pendingTrades db).map _).Sublist _
    unfold pendingTrades
    rw [pending_rows_eq]
    exact List.filter_sublist _
  · intro hreach
    exact pendingTrades_ids_sorted db (reachable_sorted _ db hreach)

/-- C11 at a concrete input: the two-trade scenario after a tick in which the stats update of
the first trade fails; the fetch returns the first trade only, with id 1. -/
theorem fetchPendingTrades_contract_witness :
    SortedIds (ProcessPendingTrades scenarioDB statsFailure).db ∧
    (FetchPendingTrades (ProcessPendingTrades scenarioDB statsFailure).db none).1 = [buyTrade1] ∧
    ((FetchPendingTrades (ProcessPendingTrades scenarioDB statsFailure).db none).1.map
      (fun t => t.ID)).Pairwise (fun a b => a < b) :=
  ⟨by decide, by decide,
    (fetchPendingTrades_contract (ProcessPendingTrades scenarioDB statsFailure).db).2.2.2.2.2.1
      (by decide)⟩

/-! ## Reading the stats: theorems -/

/-- With the primary key of `account_stats` (one row per account), the row found for an
account is its row. -/
lemma find_of_mem_nodup (rows : List Stats) (a : String) (n : Int) (q : ℚ)
    (hnd : (rows.map (fun s => s.Account)).Nodup)
    (hmem : ({ Account := a, Trades := n, Profit := q } : Stats) ∈ rows) :
    rows.find? (fun s => s.Account = a) = some { Account := a, Trades := n, Profit := q } := by
  induction rows with
  | nil => cases hmem
  | cons r rest ih =>
    rw [List.map_cons, List.nodup_cons] at hnd
    obtain ⟨hnot, hrest⟩ := hnd
    rw [List.find?_cons]
    by_cases hr : r.Account = a
    · rcases List.mem_cons.mp hmem with heq | hin
      · simp [← heq]
      · exact absurd (List.mem_map.mpr ⟨_, hin, hr.symm⟩) hnot
    · rcases List.mem_cons.mp hmem with heq | hin
      · exact absurd (by rw [← heq]) hr
      · simp only [hr, decide_False]
        exact ih hrest hin

/-- C12: for every store and every account without a stats record, `GetStats` returns the
record {Account: account, Trades: 0, Profit: 0} with a nil error; for an account with a
record it returns the stored trades and profit (the record found by the query, which is the
account's only record under the primary key); `GetStats` is a query and has no store result;
and enqueueing a trade, which leaves the stats table alone, leaves what `GetStats` returns
as it was, so at zero when only enqueues happened since the empty store. -/
theorem getStats_zero_state (db : DB) (a : String) :
    ((∀ s ∈ db.account_stats, s.Account ≠ a) →
      GetStats db a none = ({ Account := a, Trades := 0, Profit := 0 }, none)) ∧
    (∀ s, db.account_stats.find? (fun s => s.Account = a) = some s →
      GetStats db a none = ({ Account := a, Trades := s.Trades, Profit := s.Profit }, none)) ∧
    (∀ n q, (db.account_stats.map (fun s => s.Account)).Nodup →
      ({ Account := a, Trades := n, Profit := q } : Stats) ∈ db.account_stats →
      GetStats db a none = ({ Account := a, Trades := n, Profit := q }, none)) ∧
    (∀ t f, GetStats (EnqueueTrade db t f).2 a none = GetStats db a none) ∧
    (∀ t f, GetStats (EnqueueTrade emptyDB t f).2 a none =
      ({ Account := a, Trades := 0, Profit := 0 }, none)) := by
  have henq : ∀ (d : DB) t f, (EnqueueTrade d t f).2.account_stats = d.account_stats := by
    intro d t f
    cases f <;> rfl
  refine ⟨getStats_zero db a, ?_, ?_, ?_, ?_⟩
  · intro s hs
    simp only [GetStats, hs]
  · intro n q hnd hmem
    simp only [GetStats, find_of_mem_nodup db.account_stats a n q hnd hmem]
  · intro t f
    exact getStats_congr db _ a (henq db t f)
  · intro t f
    rw [getStats_congr emptyDB _ a (henq emptyDB t f)]
    rfl

/-- C12 at concrete inputs: in the two-trade scenario before any tick "acc1" reads as zero;
after a tick "acc1" has a record, which is returned, and "acc2" has none. -/
theorem getStats_zero_state_witness :
    (∀ s ∈ scenarioDB.account_stats, s.Account ≠ "acc1") ∧
    GetStats scenarioDB "acc1" none = ({ Account := "acc1", Trades := 0, Profit := 0 }, none) ∧
    GetStats (ProcessPendingTrades scenarioDB TickFaults.ok).db "acc2" none =
      ({ Account := "acc2", Trades := 0, Profit := 0 }, none) ∧
    GetStats (ProcessPendingTrades scenarioDB TickFaults.ok).db "acc1" none =
      ({ Account := "acc1", Trades := 2, Profit := 125000 }, none) :=
  ⟨by decide,
    (getStats_zero_state scenarioDB "acc1").1 (by decide),
    (getStats_zero_state (ProcessPendingTrades scenarioDB TickFaults.ok).db "acc2").1
      (by decide),
    (getStats_zero_state (ProcessPendingTrades scenarioDB TickFaults.ok).db "acc1").2.2.1
      2 125000 (by decide) (by decide!)⟩

/-! ## Request validation: theorems -/

/-- A counted repetition of a character range matches a whole input exactly when the input
has that many characters, all of them in the range. -/
lemma iterMatch_range (lo hi : Char) (n : Nat) :
    ∀ cs : List Char,
      iterMatch (Regex.matchStart (Regex.range lo hi)) n cs = some [] ↔
        cs.length = n ∧ ∀ c ∈ cs, lo ≤ c ∧ c ≤ hi := by
  induction n with
  | zero =>
    intro cs
    cases cs with
    | nil => simp [iterMatch]
    | cons c rest => simp [iterMatch]
  | succ n ih =>
    intro cs
    cases cs with
    | nil => simp [iterMatch, Regex.matchStart]
    | cons c rest =>
      by_cases hc : lo ≤ c ∧ c ≤ hi
      · have hstep : Regex.matchStart (Regex.range lo hi) (c :: rest) = some rest := by
          simp only [Regex.matchStart, hc, and_self, if_true]
        rw [iterMatch, hstep]
        simp only [ih rest, List.length_cons, add_left_inj, List.mem_cons, forall_eq_or_imp, hc,
          and_self, true_and]
      · have hstep : Regex.matchStart (Regex.range lo hi) (c :: rest) = none := by
          simp only [Regex.matchStart, hc, if_false]
        rw [iterMatch, hstep]
        simp only [List.mem_cons, forall_eq_or_imp, hc, false_and, and_false]
        simp

/-- What `symbolRe.MatchString` accepts: exactly six characters, each in `A`..`Z`. -/
lemma symbolRe_match (s : String) :
    matchAnchored symbolRe s = true ↔
      s.data.length = 6 ∧ ∀ c ∈ s.data, 'A' ≤ c ∧ c ≤ 'Z' := by
  unfold matchAnchored symbolRe
  rw [decide_eq_true_eq]
  exact iterMatch_range 'A' 'Z' 6 s.data

/-- C13: for every request, `ValidateTradeRequest` returns no error if and only if the account
is non-empty, the symbol consists of exactly six characters each of which is an uppercase
letter `A`..`Z`, volume, open and close are each strictly greater than 0, and side is "buy" or
"sell"; in every other case it returns the error "invalid trade payload". -/
theorem validateTradeRequest_iff (req : TradeRequest) :
    (ValidateTradeRequest req = none ↔
      req.Account ≠ "" ∧
      (req.Symbol.data.length = 6 ∧ ∀ c ∈ req.Symbol.data, 'A' ≤ c ∧ c ≤ 'Z') ∧
      0 < req.Volume ∧ 0 < req.Open ∧ 0 < req.Close ∧
      (req.Side = "buy" ∨ req.Side = "sell")) ∧
    (ValidateTradeRequest req ≠ none →
      ValidateTradeRequest req = some (Error.message "invalid trade payload")) ∧
    (∀ c : Char, ('A' ≤ c ∧ c ≤ 'Z') ↔ c.isUpper = true) := by
  refine ⟨?_, ?_, ?_⟩
  · unfold ValidateTradeRequest
    have hsym := symbolRe_match req.Symbol
    constructor
    · intro h
      split at h
      · cases h
      · rename_i hcond
        simp only [not_or, not_le, not_and, not_not] at hcond
        obtain ⟨h1, h2, h3, h4, h5, h6⟩ := hcond
        refine ⟨h1, hsym.mp h2, h3, h4, h5, ?_⟩
        by_cases hb : req.Side = "buy"
        · exact Or.inl hb
        · exact Or.inr (h6 hb)
    · rintro ⟨h1, h2, h3, h4, h5, h6⟩
      rw [if_neg]
      simp only [not_or, not_le, not_and, not_not]
      refine ⟨h1, hsym.mpr h2, h3, h4, h5, ?_⟩
      intro hb
      rcases h6 with h6 | h6
      · exact absurd h6 hb
      · exact h6
  · intro h
    unfold ValidateTradeRequest at h ⊢
    split
    · rfl
    · rename_i hcond
      rw [if_neg hcond] at h
      exact absurd rfl h
  · intro c
    simp [Char.isUpper, Char.le_def]

/-- C13 at concrete inputs: the valid request of the test table is accepted, and the same
request with the three-letter symbol "ABC" is rejected with "invalid trade payload". -/
theorem validateTradeRequest_iff_witness :
    ValidateTradeRequest validRequest = none ∧
    ValidateTradeRequest { validRequest with Symbol := "ABC" } =
      some (Error.message "invalid trade payload") :=
  ⟨(validateTradeRequest_iff validRequest).1.mpr (by decide!),
    (validateTradeRequest_iff { validRequest with Symbol := "ABC" }).2.1 (by decide!)⟩

/-! ## The two drains compared: theorems -/

/-- The loop of `ProcessPending` without storage failure processes every trade. -/
lemma pendingLoop_ok (ts : List Trade) :
    ∀ db : DB,
      pendingLoop ts [] db =
        (none, ts.foldl (fun d t => (ProcessTrade d t TradeFaults.ok).2) db) := by
  induction ts with
  | nil =>
    intro db
    rfl
  | cons t ts ih =>
    intro db
    rw [pendingLoop]
    simp only [List.headD_nil, List.tail_nil, List.foldl_cons]
    exact ih _

/-- The loop of `ProcessPending` over trades that go through, followed by more trades. -/
lemma pendingLoop_prefix (pre : List Trade) (ts : List Trade) (fs : List TradeFaults) :
    ∀ db : DB,
      pendingLoop (pre ++ ts) (List.replicate pre.length TradeFaults.ok ++ fs) db =
        pendingLoop ts fs (pre.foldl (fun d t => (ProcessTrade d t TradeFaults.ok).2) db) := by
  induction pre with
  | nil =>
    intro db
    rfl
  | cons p pre ih =>
    intro db
    rw [List.cons_append, List.length_cons, List.replicate_succ, List.cons_append, pendingLoop]
    simp only [List.headD_cons, List.tail_cons, List.foldl_cons]
    exact ih _

/-- The loop of `ProcessPending` at a failing trade: it returns the error of the failing
storage call and the store as the failing trade left it; the later trades are not visited. -/
lemma pendingLoop_fail (t : Trade) (post : List Trade) (f : TradeFaults)
    (rest : List TradeFaults) (e : Error) (db : DB) (hf : f.firstError = some e) :
    pendingLoop (t :: post) (f :: rest) db = (some e, (ProcessTrade db t f).2) := by
  rw [pendingLoop]
  unfold TradeFaults.firstError TxFaults.firstError at hf
  unfold ProcessTrade CalculateProfitFromTrade UpdateStats MarkProcessed
  simp only [List.headD_cons]
  cases hb : f.stats.beginTx <;> cases he : f.stats.execStmt <;>
    cases hc : f.stats.commitTx <;> cases hm : f.mark <;> simp_all

/-- The store after the loop of `ProcessPendingTrades` does not depend on the running count,
log and call record. -/
lemma processLoop_db (ts : List Trade) :
    ∀ (fs : List TradeFaults) (db : DB) (c : Int) (log : List Error)
      (calls : List (Trade × Option Error)),
      (processLoop ts fs db c log calls).db = (processLoop ts fs db 0 [] []).db := by
  induction ts with
  | nil =>
    intro fs db c log calls
    rfl
  | cons t ts ih =>
    intro fs db c log calls
    rw [processLoop, processLoop]
    cases hres : ProcessTrade db t (fs.headD TradeFaults.ok) with
    | mk e db1 =>
      cases e with
      | some e => exact (ih _ _ _ _ _).trans (ih _ _ _ _ _).symm
      | none => exact (ih _ _ _ _ _).trans (ih _ _ _ _ _).symm

/-- The loop of `ProcessPendingTrades` over trades that go through, followed by more
trades. -/
lemma processLoop_prefix (pre : List Trade) (ts : List Trade) (fs : List TradeFaults) :
    ∀ (db : DB) (c : Int) (log : List Error) (calls : List (Trade × Option Error)),
      (processLoop (pre ++ ts) (List.replicate pre.length TradeFaults.ok ++ fs) db c log
          calls).db =
        (processLoop ts fs (pre.foldl (fun d t => (ProcessTrade d t TradeFaults.ok).2) db)
          0 [] []).db := by
  induction pre with
  | nil =>
    intro db c log calls
    exact processLoop_db ts fs db c log calls
  | cons p pre ih =>
    intro db c log calls
    rw [List.cons_append, List.length_cons, List.replicate_succ, List.cons_append, processLoop]
    simp only [List.headD_cons, List.tail_cons, List.foldl_cons, processTrade_ok]
    exact ih _ _ _ _

/-- The loop of `ProcessPendingTrades` at a trade, failing or not: it goes on with the later
trades from the store the trade left. -/
lemma processLoop_step (t : Trade) (post : List Trade) (f : TradeFaults)
    (rest : List TradeFaults) (db : DB) :
    (processLoop (t :: post) (f :: rest) db 0 [] []).db =
      (processLoop post rest (ProcessTrade db t f).2 0 [] []).db := by
  rw [processLoop]
  simp only [List.headD_cons, List.tail_cons]
  cases hres : ProcessTrade db t f with
  | mk e db1 =>
    cases e with
    | some e => exact processLoop_db _ _ _ _ _ _
    | none => exact processLoop_db _ _ _ _ _ _

/-- The stats table after `ProcessTrade`: the upsert when the stats update went through,
untouched otherwise. -/
lemma processTrade_stats (db : DB) (t : Trade) (f : TradeFaults) :
    (f.stats.firstError = none →
      (ProcessTrade db t f).2.account_stats =
        upsertStats db.account_stats t.Account (CalculateProfitFromTrade t)) ∧
    (f.stats.firstError ≠ none → (ProcessTrade db t f).2.account_stats = db.account_stats) := by
  unfold TxFaults.firstError ProcessTrade UpdateStats MarkProcessed
  cases f.stats.beginTx <;> cases f.stats.execStmt <;> cases f.stats.commitTx <;>
    cases f.mark <;> simp

/-- A failing trade returns an error from `ProcessTrade`. -/
lemma processTrade_failed (db : DB) (t : Trade) (f : TradeFaults) (e : Error)
    (hf : f.firstError = some e) : (ProcessTrade db t f).1 ≠ none := by
  unfold TradeFaults.firstError TxFaults.firstError at hf
  unfold ProcessTrade UpdateStats MarkProcessed
  cases hb : f.stats.beginTx <;> cases he : f.stats.execStmt <;>
    cases hc : f.stats.commitTx <;> cases hm : f.mark <;> simp_all

/-- No trade whose id was marked is pending afterwards. -/
lemma not_pending_of_marked (rows : List QRow) (ids : List Int) (t : Trade)
    (hid : t.ID ∈ ids) :
    ({ trade := t, processed := false } : QRow) ∉
      rows.map (fun r => if r.trade.ID ∈ ids then { r with processed := true } else r) := by
  intro hmem
  obtain ⟨r0, _, hr0⟩ := List.mem_map.mp hmem
  by_cases h : r0.trade.ID ∈ ids
  · rw [if_pos h] at hr0
    have := congrArg QRow.processed hr0
    simp at this
  · rw [if_neg h] at hr0
    subst hr0
    exact h hid

/-- A pending row whose id was not marked is still pending. -/
lemma pending_of_not_marked (rows : List QRow) (ids : List Int) (t : Trade)
    (hrow : ({ trade := t, processed := false } : QRow) ∈ rows) (hid : t.ID ∉ ids) :
    ({ trade := t, processed := false } : QRow) ∈
      rows.map (fun r => if r.trade.ID ∈ ids then { r with processed := true } else r) := by
  refine List.mem_map.mpr ⟨_, hrow, ?_⟩
  simp only [hid, if_false]

/-- C15: the two drains agree when nothing fails and differ on failure. For every store,
without storage failure `db.ProcessPending` returns no error and leaves the store that
`ProcessPendingTrades` leaves (the two use the same profit rule). When the batch is
`pre ++ t :: post`, the trades of `pre` go through and a storage call of `UpdateStats` or
`MarkProcessed` fails for `t` with error `e`: `db.ProcessPending` returns `e` at once and
leaves the store as `t` left it, in which every trade of `post` is still pending (ids being
unique) and the stats count only the trades of `pre`, and `t` if its stats update went
through; `ProcessPendingTrades` returns no error, calls `ProcessTrade` on every trade of the
batch, and its store is the one obtained by running its loop on `post` from where
`db.ProcessPending` stopped; if no later call fails, no trade of `post` is pending after
it. -/
theorem drains_agree_and_differ (db : DB) :
    ProcessPending db TickFaults.ok = (none, (ProcessPendingTrades db TickFaults.ok).db) ∧
    (∀ (pre post : List Trade) (t : Trade) (f : TradeFaults) (rest : List TradeFaults)
        (e : Error),
      pendingTrades db = pre ++ t :: post → f.firstError = some e →
      ProcessPending db { fetch := none, trades := failAt pre.length f rest } =
        (some e,
          (ProcessTrade (pre.foldl (fun d t => (ProcessTrade d t TradeFaults.ok).2) db) t f).2) ∧
      (UniqueIds db → ∀ t2 ∈ post,
        ({ trade := t2, processed := false } : QRow) ∈
          (ProcessPending db { fetch := none, trades := failAt pre.length f rest }).2.trades_q) ∧
      (∀ b : String,
        (GetStats (ProcessPending db { fetch := none, trades := failAt pre.length f rest }).2
            b none).1.Trades =
          (GetStats db b none).1.Trades + (tradesOf pre b).length +
            (if f.stats.firstError = none ∧ b = t.Account then 1 else 0) ∧
        (GetStats (ProcessPending db { fetch := none, trades := failAt pre.length f rest }).2
            b none).1.Profit =
          (GetStats db b none).1.Profit + totalProfit (tradesOf pre b) +
            (if f.stats.firstError = none ∧ b = t.Account then CalculateProfitFromTrade t
             else 0)) ∧
      (ProcessPendingTrades db { fetch := none, trades := failAt pre.length f rest }).err
        = none ∧
      (ProcessPendingTrades db { fetch := none, trades := failAt pre.length f rest }).calls.map
        Prod.fst = pre ++ t :: post ∧
      (ProcessPendingTrades db { fetch := none, trades := failAt pre.length f rest }).db =
        (processLoop post rest
          (ProcessPending db { fetch := none, trades := failAt pre.length f rest }).2
          0 [] []).db ∧
      (rest = [] → ∀ t2 ∈ post,
        t2 ∉ pendingTrades
          (ProcessPendingTrades db { fetch := none, trades := failAt pre.length f rest }).db))
    := by
  constructor
  · rw [processPendingTrades_ok]
    simp only [ProcessPending, FetchPendingTrades, TickFaults.ok, pendingLoop_ok]
  · intro pre post t f rest e hsplit hf
    have hPP : ProcessPending db { fetch := none, trades := failAt pre.length f rest } =
        (some e,
          (ProcessTrade (pre.foldl (fun d t => (ProcessTrade d t TradeFaults.ok).2) db) t
            f).2) := by
      simp only [ProcessPending, FetchPendingTrades, failAt]
      rw [hsplit, pendingLoop_prefix, pendingLoop_fail _ _ _ _ e _ hf]
    have hfailed := processTrade_failed
      (pre.foldl (fun d t => (ProcessTrade d t TradeFaults.ok).2) db) t f e hf
    have hqueue : (ProcessTrade (pre.foldl (fun d t => (ProcessTrade d t TradeFaults.ok).2) db)
        t f).2.trades_q =
        db.trades_q.map (fun r =>
          if r.trade.ID ∈ pre.map (fun t => t.ID) then { r with processed := true } else r) := by
      rw [(processTrade_queue _ t f).2 hfailed, foldl_queue]
    have hPT : (ProcessPendingTrades db
        { fetch := none, trades := failAt pre.length f rest }).db =
        (processLoop post rest
          (ProcessTrade (pre.foldl (fun d t => (ProcessTrade d t TradeFaults.ok).2) db) t f).2
          0 [] []).db := by
      rw [processPendingTrades_fetched db _ rfl]
      simp only [failAt]
      rw [hsplit, processLoop_prefix, processLoop_step]
    obtain ⟨new, h1, h2, h3, -⟩ := processLoop_spec (pendingTrades db)
      (failAt pre.length f rest) db 0 [] []
    rw [hPP]
    refine ⟨rfl, ?_, ?_, ?_, ?_, hPT, ?_⟩
    · intro hu t2 ht2
      show _ ∈ (ProcessTrade _ t f).2.trades_q
      rw [hqueue]
      have hmem : t2 ∈ pendingTrades db := by
        rw [hsplit]
        exact List.mem_append_right _ (List.mem_cons_of_mem _ ht2)
      have hnd := pendingTrades_ids_nodup db hu
      rw [hsplit, List.map_append, List.nodup_append] at hnd
      apply pending_of_not_marked _ _ _ ((mem_pendingTrades db t2).mp hmem)
      intro hin
      exact hnd.2.2 hin (List.mem_map.mpr ⟨t2, List.mem_cons_of_mem _ ht2, rfl⟩)
    · intro b
      obtain ⟨s1, s2⟩ := foldl_stats pre b db
      by_cases hs : f.stats.firstError = none
      · obtain ⟨u1, u2⟩ := getStats_upsert
          (pre.foldl (fun d t => (ProcessTrade d t TradeFaults.ok).2) db)
          (ProcessTrade (pre.foldl (fun d t => (ProcessTrade d t TradeFaults.ok).2) db) t f).2
          t.Account b (CalculateProfitFromTrade t) ((processTrade_stats _ t f).1 hs)
        show (GetStats (ProcessTrade _ t f).2 b none).1.Trades = _ ∧
          (GetStats (ProcessTrade _ t f).2 b none).1.Profit = _
        rw [u1, u2, s1, s2]
        simp only [hs, true_and]
      · have hc := getStats_congr
          (pre.foldl (fun d t => (ProcessTrade d t TradeFaults.ok).2) db)
          (ProcessTrade (pre.foldl (fun d t => (ProcessTrade d t TradeFaults.ok).2) db) t f).2
          b ((processTrade_stats _ t f).2 hs)
        show (GetStats (ProcessTrade _ t f).2 b none).1.Trades = _ ∧
          (GetStats (ProcessTrade _ t f).2 b none).1.Profit = _
        rw [hc, s1, s2]
        simp only [hs, false_and, if_false, add_zero]
        exact ⟨trivial, trivial⟩
    · rw [processPendingTrades_fetched db _ rfl]
      exact h3
    · rw [processPendingTrades_fetched db _ rfl, h1, List.nil_append, h2, hsplit]
    · intro hrest t2 ht2 hpend
      rw [hPT, hrest, processLoop_ok] at hpend
      have hrow := (mem_pendingTrades _ t2).mp hpend
      simp only [] at hrow
      rw [foldl_queue] at hrow
      exact not_pending_of_marked _ _ t2 (List.mem_map.mpr ⟨t2, ht2, rfl⟩) hrow

/-- C15 at a concrete input: the two-trade scenario with a failing `tx.Exec` on the first
trade. `db.ProcessPending` returns the storage error and leaves both trades pending and the
stats empty; `ProcessPendingTrades` returns no error, counts one processed trade, leaves only
the first trade pending and has aggregated the second (profit 25000). -/
theorem drains_agree_and_differ_witness :
    pendingTrades scenarioDB = [] ++ buyTrade1 :: [sellTrade2] ∧
    execFailure.firstError = some (Error.driver "disk I/O error") ∧
    ProcessPending scenarioDB { fetch := none, trades := failAt 0 execFailure [] } =
      (some (Error.driver "disk I/O error"), scenarioDB) ∧
    (ProcessPendingTrades scenarioDB { fetch := none, trades := failAt 0 execFailure [] }).err
      = none ∧
    (ProcessPendingTrades scenarioDB { fetch := none, trades := failAt 0 execFailure [] }).count
      = 1 ∧
    pendingTrades
      (ProcessPendingTrades scenarioDB { fetch := none, trades := failAt 0 execFailure [] }).db
      = [buyTrade1] ∧
    GetStats
      (ProcessPendingTrades scenarioDB { fetch := none, trades := failAt 0 execFailure [] }).db
      "acc1" none = ({ Account := "acc1", Trades := 1, Profit := 25000 }, none) ∧
    ProcessPending scenarioDB TickFaults.ok =
      (none, (ProcessPendingTrades scenarioDB TickFaults.ok).db) :=
  ⟨by decide!, by decide,
    ((drains_agree_and_differ scenarioDB).2 [] [sellTrade2] buyTrade1 execFailure []
      (Error.driver "disk I/O error") (by decide!) (by decide)).1,
    by decide, by decide, by decide, by decide!,
    (drains_agree_and_differ scenarioDB).1⟩

/-! ## Two stats updates one after the other -/

/-- Two `UpdateStats` calls for an account without a record, run one after the other without
storage failure, leave the record {trades: 2, profit: p1 + p2}, in either order of the two
calls. This is the serial execution only: how the storage engine schedules two overlapping
transactions is not part of this development. -/
theorem updateStats_twice_serial (db : DB) (a : String) (p1 p2 : ℚ)
    (hnone : ∀ s ∈ db.account_stats, s.Account ≠ a) :
    GetStats (UpdateStats (UpdateStats db a p1 TxFaults.ok).2 a p2 TxFaults.ok).2 a none =
      ({ Account := a, Trades := 2, Profit := p1 + p2 }, none) ∧
    GetStats (UpdateStats (UpdateStats db a p2 TxFaults.ok).2 a p1 TxFaults.ok).2 a none =
      ({ Account := a, Trades := 2, Profit := p1 + p2 }, none) := by
  have hfind : db.account_stats.find? (fun s => s.Account = a) = none := by
    simpa [List.find?_eq_none] using hnone
  have key : ∀ x y : ℚ,
      GetStats (UpdateStats (UpdateStats db a x TxFaults.ok).2 a y TxFaults.ok).2 a none =
        ({ Account := a, Trades := 2, Profit := x + y }, none) := by
    intro x y
    have h1 : (UpdateStats db a x TxFaults.ok).2.account_stats.find?
        (fun s => s.Account = a) = some { Account := a, Trades := 1, Profit := x } := by
      show (upsertStats db.account_stats a x).find? _ = _
      rw [find_upsert_self, hfind]
    have h2 : (UpdateStats (UpdateStats db a x TxFaults.ok).2 a y TxFaults.ok).2.account_stats.find?
        (fun s => s.Account = a) = some { Account := a, Trades := 2, Profit := x + y } := by
      show (upsertStats (UpdateStats db a x TxFaults.ok).2.account_stats a y).find? _ = _
      rw [find_upsert_self, h1]
      rfl
    simp only [GetStats, h2]
  refine ⟨key p1 p2, ?_⟩
  rw [key p2 p1, add_comm]

/-- The serial execution at the concrete input of the scenario: two updates of 50 for "acc1"
on the empty store leave trades = 2 and profit = 100. -/
theorem updateStats_twice_serial_witness :
    GetStats (UpdateStats (UpdateStats emptyDB "acc1" 50 TxFaults.ok).2 "acc1" 50
        TxFaults.ok).2 "acc1" none =
      ({ Account := "acc1", Trades := 2, Profit := 100 }, none) := by
  have h := (updateStats_twice_serial emptyDB "acc1" 50 50 (by decide)).1
  have h50 : (50 : ℚ) + 50 = 100 := by norm_num
  rw [h50] at h
  exact h

end Broker
